import Mathlib

/-!
Verification development for the SmartRenameDownloads browser extension.

JavaScript strings are modelled as lists of UTF-16 code units (`List Nat`),
which is exactly the data model JS regexes and `String.prototype` methods
operate on.  Byte buffers (`ArrayBuffer`/`Uint8Array`) are also `List Nat`
(one byte per entry); the latin1 text view used by the PDF extractor maps
byte `k` to code unit `k`, so the two coincide in the model.

External, environment-provided operations (the network, `DecompressionStream`,
`new URL(...)`, the remote model) are passed in as explicit oracle values, so
every function here is computable and total.
-/

set_option maxRecDepth 10000

/-- Code units of a Lean string literal, used to write concrete JS strings. -/
def jstr (s : String) : List Nat :=
  s.toList.map Char.toNat

/-- JS regex `\s` (and `String.prototype.trim`) white-space set, by code unit. -/
def isSpaceCode (n : Nat) : Bool :=
  n == 9 || n == 10 || n == 11 || n == 12 || n == 13 || n == 32 ||
  n == 160 || n == 5760 || (8192 ≤ n && n ≤ 8202) || n == 8232 ||
  n == 8233 || n == 8239 || n == 8287 || n == 12288 || n == 65279

/-- `a`–`z`. -/
def isLowerAlpha (n : Nat) : Bool := 97 ≤ n && n ≤ 122

/-- `A`–`Z`. -/
def isUpperAlpha (n : Nat) : Bool := 65 ≤ n && n ≤ 90

/-- `0`–`9`. -/
def isDigitCode (n : Nat) : Bool := 48 ≤ n && n ≤ 57

/-- `[a-z0-9]`. -/
def isLowerAlnum (n : Nat) : Bool := isLowerAlpha n || isDigitCode n

/-- JS regex `[A-Za-z0-9]`. -/
def isAlnumAny (n : Nat) : Bool := isLowerAlpha n || isUpperAlpha n || isDigitCode n

/-- JS regex `\w`, i.e. `[A-Za-z0-9_]`. -/
def isWordCode (n : Nat) : Bool := isAlnumAny n || n == 95

/-- ASCII model of `String.prototype.toLowerCase` on one code unit. -/
def toLowerCode (n : Nat) : Nat :=
  if 65 ≤ n ∧ n ≤ 90 then n + 32 else n

/-- `String.prototype.toLowerCase` (ASCII model). -/
def toLowerStr (l : List Nat) : List Nat :=
  l.map toLowerCode

/-- JS `String.prototype.split(sep)` for a one-character separator.
`"".split(sep)` is `[""]`, exactly as in JS. -/
def splitSep (sep : Nat) : List Nat → List (List Nat)
  | [] => [[]]
  | c :: rest =>
    if c == sep then [] :: splitSep sep rest
    else
      match splitSep sep rest with
      | [] => [[c]]
      | w :: ws => (c :: w) :: ws

/-- JS `Array.prototype.join(j)` for a one-character joiner. -/
def joinSep (j : Nat) : List (List Nat) → List Nat
  | [] => []
  | [w] => w
  | w :: ws => w ++ j :: joinSep j ws

/-- `joinSep` with `'-'`, the shape produced by `.join('-')`. -/
def joinHyphens : List (List Nat) → List Nat := joinSep 45

/-- JS `Array.prototype.slice(0, e)`: a negative end index counts from the
end of the array. -/
def jsSliceTo (l : List α) (e : Int) : List α :=
  let stop : Int := if e < 0 then (l.length : Int) + e else e
  l.take stop.toNat

/-- One `String.prototype.replace(/X+/g, r)` pass: every maximal run of
characters satisfying `p` is replaced by the single character `r`.
Structured two characters at a time so the recursion is structural. -/
def collapseRuns (p : Nat → Bool) (r : Nat) : List Nat → List Nat
  | [] => []
  | [c] => if p c then [r] else [c]
  | a :: b :: t =>
    if p a && p b then collapseRuns p r (b :: t)
    else (if p a then r else a) :: collapseRuns p r (b :: t)

/-- `String.prototype.trim()`. -/
def jsTrim (l : List Nat) : List Nat :=
  ((l.dropWhile isSpaceCode).reverse.dropWhile isSpaceCode).reverse

/-- JS `String.prototype.includes(pat)` for a literal pattern. -/
def jsIncludes (pat : List Nat) : List Nat → Bool
  | [] => pat.isEmpty
  | l@(_ :: rest) => pat.isPrefixOf l || jsIncludes pat rest

/-- JS `String.prototype.indexOf(pat, from)`: `idx` is the absolute index of
the head of the list being scanned. -/
def findSubFrom (pat : List Nat) : List Nat → Nat → Option Nat
  | [], idx => if pat.isEmpty then some idx else none
  | l@(_ :: rest), idx =>
    if pat.isPrefixOf l then some idx else findSubFrom pat rest (idx + 1)

/-- Decimal digits of a natural number (little fuel recursion via binary
induction is avoided: fuel is the number itself). -/
def natDigitsGo : Nat → Nat → List Nat
  | 0, _ => []
  | _ + 1, 0 => []
  | fuel + 1, n => natDigitsGo fuel (n / 10) ++ [48 + n % 10]

/-- JS number-to-string for integers, e.g. `${-4}` is `"-4"`. -/
def intToStr (i : Int) : List Nat :=
  if i < 0 then 45 :: natDigitsGo i.natAbs.succ i.natAbs
  else if i = 0 then [48]
  else natDigitsGo i.toNat.succ i.toNat

/-- `Math.ceil(w / 1000)` on an integer number of milliseconds. -/
def ceilDiv1000 (w : Int) : Int :=
  -((-w).fdiv 1000)

/-!  ## Slugifier, current version (`src/extension/hf-api.js`,
`captionToFilename`, lines 96–119).

Pipeline: lowercase, strip `[^\w\s-]`, collapse white space, trim; if
`cleanCaptions` remove whole-word articles (`\b(a|an|the)\b`) and re-collapse;
split on single spaces, drop empty words, keep the first `maxWords || 5`
words joined by `-`; date suffix or `limited || 'download'`. -/

/-- Settings snapshot (`CONFIG.DEFAULTS` merged with stored settings).
`maxWords = 0` encodes the JS falsy values `0`/`undefined`, which behave
identically in both uses (`maxWords || 5` and `maxWords && maxWords > 0`). -/
structure Settings where
  hfToken : List Nat
  model : List Nat
  cleanCaptions : Bool
  addDateSuffix : Bool
  skipSmallImages : Bool
  enableNotifications : Bool
  enablePdfRenaming : Bool
  maxWords : Int
  maxImageSize : Int
  minImageSize : Int
  pdfMaxChars : Int
  pdfMaxStreams : Int
deriving Repr, DecidableEq

namespace HfApi

/-- One scan step of `replace(/\b(a|an|the)\b/g, '')`.  `prevW` records
whether the character just before the current position is a `\w` character
(so `\b` holds exactly when `prevW` is false).  The alternation is tried in
source order `a`, `an`, `the`; each alternative also needs a word boundary
after it.  After a match the scan resumes right after the matched word, whose
last character is a word character, hence the recursive calls with `true`.
Fuel is the length of the remaining input; each step consumes at least one
character. -/
def rmArticlesGo : Nat → Bool → List Nat → List Nat
  | 0, _, l => l
  | _ + 1, _, [] => []
  | fuel + 1, prevW, c :: rest =>
    if prevW then c :: rmArticlesGo fuel (isWordCode c) rest
    else if c == 97 && !(rest.head?.elim false fun d => isWordCode d) then
      rmArticlesGo fuel true rest
    else if c == 97 && rest.head? == some 110 &&
        !((rest.drop 1).head?.elim false fun d => isWordCode d) then
      rmArticlesGo fuel true (rest.drop 1)
    else if c == 116 && rest.take 2 == [104, 101] &&
        !((rest.drop 2).head?.elim false fun d => isWordCode d) then
      rmArticlesGo fuel true (rest.drop 2)
    else c :: rmArticlesGo fuel (isWordCode c) rest

/-- `text.replace(/\b(a|an|the)\b/g, '')`. -/
def rmArticles (l : List Nat) : List Nat :=
  rmArticlesGo l.length false l

/-- The `text` local of `captionToFilename` after the initial cleanup and the
optional article removal. -/
def cleanedText (caption : List Nat) (cleanCaptions : Bool) : List Nat :=
  let text := jsTrim (collapseRuns isSpaceCode 32
    ((toLowerStr caption).filter fun n => isWordCode n || isSpaceCode n || n == 45))
  if cleanCaptions then jsTrim (collapseRuns isSpaceCode 32 (rmArticles text))
  else text

/-- The `limited` local: first `maxWords || 5` non-empty words joined by `-`. -/
def limited (caption : List Nat) (settings : Settings) : List Nat :=
  let words := (splitSep 32 (cleanedText caption settings.cleanCaptions)).filter
    fun w => !w.isEmpty
  joinHyphens (jsSliceTo words (if settings.maxWords = 0 then 5 else settings.maxWords))

/-- `captionToFilename` from `src/extension/hf-api.js`.  `today` is the
`YYYY-MM-DD` part of `new Date().toISOString()`, passed explicitly. -/
def captionToFilename (caption : List Nat) (settings : Settings) (today : List Nat) :
    List Nat :=
  let lim := limited caption settings
  if settings.addDateSuffix then lim ++ 45 :: today
  else if lim.isEmpty then jstr "download" else lim

end HfApi

/-!  ## Slugifier, previous version (`src/unnamed/part_002`,
`captionToFilename`, lines 85–130). -/

namespace Part002

/-- Try one alternative of `/^(a|an|the)\s+/`: the word must be a prefix and
be followed by at least one white-space character; the greedy `\s+` then
swallows the whole run. -/
def afterArticle (art : List Nat) (l : List Nat) : Option (List Nat) :=
  if art.isPrefixOf l then
    let r := l.drop art.length
    match r with
    | c :: _ => if isSpaceCode c then some (r.dropWhile isSpaceCode) else none
    | [] => none
  else none

/-- `filename.replace(/^(a|an|the)\s+/gi, '')`: anchored at the start, so at
most one leading article is removed (alternation order `a`, `an`, `the`). -/
def stripLeadingArticle (l : List Nat) : List Nat :=
  match afterArticle (jstr "a") l with
  | some r => r
  | none =>
    match afterArticle (jstr "an") l with
    | some r => r
    | none =>
      match afterArticle (jstr "the") l with
      | some r => r
      | none => l

/-- Try the alternation `(on|in|at|with|by|of)` (or `(the)`) at the start of
`l`, requiring a following white-space character (the trailing `\s+`).
Returns the remainder starting at that white space. -/
def tryWord (ws : List (List Nat)) (l : List Nat) : Option (List Nat) :=
  match ws with
  | [] => none
  | w :: rest =>
    if w.isPrefixOf l then
      match l.drop w.length with
      | c :: t =>
        if isSpaceCode c then some (c :: t) else tryWord rest l
      | [] => tryWord rest l
    else tryWord rest l

/-- Scanner for `replace(/\s+(word…)\s+/gi, ' ')`.  On a match the whole
`\s+ word \s+` span is replaced by a single space and scanning resumes after
the trailing white-space run, on the original string, exactly as a global JS
regex does.  Fuel is the length of the remaining input; each step consumes at
least one character, so `rmWords` below always supplies enough. -/
def rmWordsGo (ws : List (List Nat)) : Nat → List Nat → List Nat
  | 0, l => l
  | _ + 1, [] => []
  | fuel + 1, c :: rest =>
    if isSpaceCode c then
      match tryWord ws ((c :: rest).dropWhile isSpaceCode) with
      | some afterWord => 32 :: rmWordsGo ws fuel (afterWord.dropWhile isSpaceCode)
      | none => c :: rmWordsGo ws fuel rest
    else c :: rmWordsGo ws fuel rest

/-- `replace(/\s+(on|in|at|with|by|of)\s+/gi, ' ')` then
`replace(/\s+(the)\s+/gi, ' ')`. -/
def rmConnectives (l : List Nat) : List Nat :=
  let l1 := rmWordsGo [jstr "on", jstr "in", jstr "at", jstr "with", jstr "by", jstr "of"]
    l.length l
  rmWordsGo [jstr "the"] l1.length l1

/-- `replace(/^-|-$/g, '')`, leading half: one leading hyphen. -/
def dropLeadHyphen : List Nat → List Nat
  | [] => []
  | c :: t => if c == 45 then t else c :: t

/-- `replace(/^-|-$/g, '')`, trailing half: one trailing hyphen. -/
def dropLastHyphen : List Nat → List Nat
  | [] => []
  | [c] => if c == 45 then [] else [c]
  | a :: b :: t => a :: dropLastHyphen (b :: t)

/-- The global replace of the pattern "one or more hyphens at the end" by
the empty string: removes every trailing hyphen (used after the length
cap). -/
def dropTrailHyphens : List Nat → List Nat
  | [] => []
  | c :: rest =>
    match dropTrailHyphens rest with
    | [] => if c == 45 then [] else [c]
    | r => c :: r

/-- The kebab-case value of `filename` after the article/connective passes,
the `[^a-z0-9\s-]` strip, space-to-hyphen, hyphen collapsing and end
trimming. -/
def kebab (caption : List Nat) (cleanCaptions : Bool) : List Nat :=
  let f := toLowerStr caption
  let f := if cleanCaptions then stripLeadingArticle f else f
  let f := rmConnectives f
  let f := f.filter fun n => isLowerAlnum n || isSpaceCode n || n == 45
  let f := collapseRuns isSpaceCode 45 f
  let f := collapseRuns (fun n => n == 45) 45 f
  dropLastHyphen (dropLeadHyphen f)

/-- The word-count limit: slice the `-`-separated words when there are more
than `maxWords` of them (only when `maxWords` is truthy and positive). -/
def limitWords (l : List Nat) (maxWords : Int) : List Nat :=
  if maxWords ≠ 0 ∧ 0 < maxWords then
    let words := splitSep 45 l
    if maxWords < (words.length : Int) then joinHyphens (jsSliceTo words maxWords)
    else l
  else l

/-- The 60-character hard cap with re-trim of a trailing hyphen run. -/
def capLength (l : List Nat) : List Nat :=
  if 60 < l.length then dropTrailHyphens (l.take 60) else l

/-- `filename` just before the date suffix: kebab value, word limit, length
cap, and the `'image'` fallback for empty or single-character results. -/
def preDateName (caption : List Nat) (settings : Settings) : List Nat :=
  let f := capLength (limitWords (kebab caption settings.cleanCaptions) settings.maxWords)
  if f.length < 2 then jstr "image" else f

/-- `captionToFilename` from `src/unnamed/part_002`. -/
def captionToFilename (caption : List Nat) (settings : Settings) (today : List Nat) :
    List Nat :=
  let f := preDateName caption settings
  if settings.addDateSuffix then f ++ 45 :: today else f

end Part002

/-!  ## PDF text extraction (`src/extension/pdf-extract.js`).

`inflateFlate` wraps the browser `DecompressionStream`; it never throws (it
returns `null` when decompression is unavailable or fails).  It is modelled
by an explicit `oracle : List Nat → Option (List Nat)` argument. -/

/-- `isOctalDigit` from pdf-extract.js. -/
def isOctalDigit (n : Nat) : Bool := 48 ≤ n && n ≤ 55

/-- Value of a one-digit octal escape. -/
def octVal1 (d : Nat) : Nat := d - 48

/-- Value of a two-digit octal escape. -/
def octVal2 (d e : Nat) : Nat := (d - 48) * 8 + (e - 48)

/-- Value of a three-digit octal escape. -/
def octVal3 (d e f : Nat) : Nat := ((d - 48) * 8 + (e - 48)) * 8 + (f - 48)

/-- `decodePdfLiteralString` from pdf-extract.js, including its quirky octal
scan: the source checks `s[i+2]` and `s[i+3]` independently, so for a
backslash, an octal digit, a non-octal character and another octal digit in a
row it combines the two octal digits, skips the middle character, and resumes
at the second octal digit (which is then also emitted as a plain character). -/
def decodePdfLiteralStringGo : Nat → List Nat → List Nat
  | 0, _ => []
  | _ + 1, [] => []
  | fuel + 1, 92 :: rest =>
    (match rest with
    | [] => []
    | d :: rest2 =>
      if d == 110 then 10 :: decodePdfLiteralStringGo fuel rest2
      else if d == 114 then 13 :: decodePdfLiteralStringGo fuel rest2
      else if d == 116 then 9 :: decodePdfLiteralStringGo fuel rest2
      else if d == 98 then 8 :: decodePdfLiteralStringGo fuel rest2
      else if d == 102 then 12 :: decodePdfLiteralStringGo fuel rest2
      else if d == 92 then 92 :: decodePdfLiteralStringGo fuel rest2
      else if d == 40 then 40 :: decodePdfLiteralStringGo fuel rest2
      else if d == 41 then 41 :: decodePdfLiteralStringGo fuel rest2
      else if d == 10 then decodePdfLiteralStringGo fuel rest2
      else if d == 13 then
        match rest2 with
        | 10 :: rest3 => decodePdfLiteralStringGo fuel rest3
        | _ => decodePdfLiteralStringGo fuel rest2
      else if isOctalDigit d then
        match rest2 with
        | [] => [octVal1 d]
        | e :: rest3 =>
          if isOctalDigit e then
            match rest3 with
            | [] => [octVal2 d e]
            | f :: rest4 =>
              if isOctalDigit f then octVal3 d e f :: decodePdfLiteralStringGo fuel rest4
              else octVal2 d e :: decodePdfLiteralStringGo fuel rest3
          else
            match rest3 with
            | [] => octVal1 d :: decodePdfLiteralStringGo fuel rest2
            | f :: _ =>
              if isOctalDigit f then octVal2 d f :: decodePdfLiteralStringGo fuel rest3
              else octVal1 d :: decodePdfLiteralStringGo fuel rest2
      else d :: decodePdfLiteralStringGo fuel rest2)
  | fuel + 1, c :: rest => c :: decodePdfLiteralStringGo fuel rest

/-- `decodePdfLiteralString` entry point: fuel is the input length; every
step consumes at least one character. -/
def decodePdfLiteralString (l : List Nat) : List Nat :=
  decodePdfLiteralStringGo l.length l

/-- `TextDecoder('utf-16be')` on a byte list: big-endian pairs become code
units; a dangling odd byte becomes U+FFFD.  (Surrogate-pair validation of the
browser decoder is elided; no theorem depends on it.) -/
def utf16beDecode : List Nat → List Nat
  | b1 :: b2 :: t => (b1 * 256 + b2) :: utf16beDecode t
  | [_] => [65533]
  | [] => []

/-- `TextDecoder('utf-8', {fatal:false})` on a byte list, producing UTF-16
code units (astral code points become surrogate pairs).  Invalid bytes decode
to U+FFFD.  (The browser's exact replacement-character granularity for
truncated sequences is approximated; no theorem depends on it.) -/
def utf8DecodeGo : Nat → List Nat → List Nat
  | 0, _ => []
  | _ + 1, [] => []
  | fuel + 1, b :: rest =>
    if b < 128 then b :: utf8DecodeGo fuel rest
    else if 194 ≤ b ∧ b ≤ 223 then
      match rest with
      | b2 :: rest2 =>
        if 128 ≤ b2 ∧ b2 ≤ 191 then ((b - 192) * 64 + (b2 - 128)) :: utf8DecodeGo fuel rest2
        else 65533 :: utf8DecodeGo fuel rest
      | [] => [65533]
    else if 224 ≤ b ∧ b ≤ 239 then
      match rest with
      | b2 :: b3 :: rest3 =>
        if (if b == 224 then 160 ≤ b2 ∧ b2 ≤ 191
            else if b == 237 then 128 ≤ b2 ∧ b2 ≤ 159
            else 128 ≤ b2 ∧ b2 ≤ 191) ∧ 128 ≤ b3 ∧ b3 ≤ 191 then
          ((b - 224) * 4096 + (b2 - 128) * 64 + (b3 - 128)) :: utf8DecodeGo fuel rest3
        else 65533 :: utf8DecodeGo fuel rest
      | _ => 65533 :: utf8DecodeGo fuel rest
    else if 240 ≤ b ∧ b ≤ 244 then
      match rest with
      | b2 :: b3 :: b4 :: rest4 =>
        if (if b == 240 then 144 ≤ b2 ∧ b2 ≤ 191
            else if b == 244 then 128 ≤ b2 ∧ b2 ≤ 143
            else 128 ≤ b2 ∧ b2 ≤ 191) ∧ 128 ≤ b3 ∧ b3 ≤ 191 ∧ 128 ≤ b4 ∧ b4 ≤ 191 then
          let cp := (b - 240) * 262144 + (b2 - 128) * 4096 + (b3 - 128) * 64 + (b4 - 128)
          (55296 + (cp - 65536) / 1024) :: (56320 + (cp - 65536) % 1024) ::
            utf8DecodeGo fuel rest4
        else 65533 :: utf8DecodeGo fuel rest
      | _ => 65533 :: utf8DecodeGo fuel rest
    else 65533 :: utf8DecodeGo fuel rest

/-- `utf8Decode` entry point: fuel is the input length; every step consumes
at least one byte. -/
def utf8Decode (l : List Nat) : List Nat :=
  utf8DecodeGo l.length l

/-- Hexadecimal digit value. -/
def hexVal (n : Nat) : Nat :=
  if 48 ≤ n ∧ n ≤ 57 then n - 48
  else if 65 ≤ n ∧ n ≤ 70 then n - 55
  else if 97 ≤ n ∧ n ≤ 102 then n - 87
  else 0

/-- JS regex `[0-9A-Fa-f]`. -/
def isHexDigit (n : Nat) : Bool :=
  isDigitCode n || (65 ≤ n && n ≤ 70) || (97 ≤ n && n ≤ 102)

/-- Hex digit pairs to bytes. -/
def hexPairsToBytes : List Nat → List Nat
  | h1 :: h2 :: t => (hexVal h1 * 16 + hexVal h2) :: hexPairsToBytes t
  | _ => []

/-- `decodePdfHexString` from pdf-extract.js: pad an odd digit count with a
`'0'`, decode pairs to bytes, then UTF-16BE on a BOM, else UTF-8 when the
result has an alphanumeric character, else the latin1 (identity) view. -/
def decodePdfHexString (hex : List Nat) : List Nat :=
  let hex := if hex.length % 2 == 1 then hex ++ [48] else hex
  let bytes := hexPairsToBytes hex
  match bytes with
  | 254 :: 255 :: rest => utf16beDecode rest
  | _ =>
    let txt := utf8Decode bytes
    if txt.any isAlnumAny then txt else bytes

/-- `cleanupText` from pdf-extract.js: collapse white-space runs to single
spaces, then collapse runs of the remaining C0 control characters to single
spaces, then trim.  (The two passes are sequential, exactly as in the
source, so a control character next to a space leaves a double space.) -/
def cleanupText (s : List Nat) : List Nat :=
  jsTrim (collapseRuns (fun n => decide (n ≤ 31)) 32 (collapseRuns isSpaceCode 32 s))

/-- Tail of the font-subset-name shape: `[A-Za-z0-9]{2,10}$`. -/
def fontTail (l : List Nat) : Bool :=
  decide (2 ≤ l.length) && decide (l.length ≤ 10) && l.all isAlnumAny

/-- After the uppercase run: an optional `+` then the 2–10 character tail. -/
def fontAfterUppers : List Nat → Bool
  | 43 :: t => fontTail t
  | t => fontTail t

/-- The font-subset-name test `^[A-Z]{1,4}\+?[A-Za-z0-9]{2,10}$`. -/
def fontLike (l : List Nat) : Bool :=
  (List.range 4).any fun i =>
    let k := i + 1
    decide (k ≤ l.length) && (l.take k).all isUpperAlpha && fontAfterUppers (l.drop k)

/-- `isUsefulText` from pdf-extract.js. -/
def isUsefulText (s : List Nat) : Bool :=
  !s.isEmpty && decide (6 ≤ s.length) &&
  decide (min 6 (s.length / 4) ≤ s.countP isAlnumAny) && !fontLike s

/-- Consume up to `fuel` repetitions of the regex item `\\.|[^\\()]` (an
escape pair or a single character other than a backslash or parenthesis),
returning the raw consumed characters, the number of items, and the
remainder.  `fuel = 400` realises the `{3,400}` upper bound. -/
def grabItems : Nat → List Nat → List Nat × Nat × List Nat
  | 0, l => ([], 0, l)
  | _ + 1, [] => ([], 0, [])
  | fuel + 1, l@(c :: rest) =>
    if c == 92 then
      match rest with
      | [] => ([], 0, l)
      | d :: rest2 =>
        let r := grabItems fuel rest2
        (92 :: d :: r.1, r.2.1 + 1, r.2.2)
    else if c == 40 || c == 41 then ([], 0, l)
    else
      let r := grabItems fuel rest
      (c :: r.1, r.2.1 + 1, r.2.2)

/-- Global scan for parenthesised literal strings, pattern
`\((?:\\.|[^\\()]){3,400}\)`: at an opening parenthesis consume items
greedily; a match needs at least 3 items and a closing parenthesis right
after them (backtracking cannot help, because no backtrack position can hold
a closing parenthesis).  After each match the source pushes the decoded
string when useful and breaks once the accumulated join exceeds 3500
characters. -/
def parenScanGo : Nat → List Nat → List (List Nat) → List (List Nat)
  | 0, _, res => res
  | _ + 1, [], res => res
  | fuel + 1, c :: rest, res =>
    if c == 40 then
      let r := grabItems 400 rest
      if 3 ≤ r.2.1 ∧ r.2.2.head? = some 41 then
        let decoded := cleanupText (decodePdfLiteralString r.1)
        let res' := if isUsefulText decoded then res ++ [decoded] else res
        if 3500 < (joinSep 32 res').length then res'
        else parenScanGo fuel (r.2.2.drop 1) res'
      else parenScanGo fuel rest res
    else parenScanGo fuel rest res

/-- Global scan for hex strings, pattern `<([0-9A-Fa-f]{8,800})>`: at `<`
the greedy digit run must have length 8–800 and be followed immediately by
`>`.  Same push-and-break discipline as the parenthesis scan, continuing
with the accumulated results. -/
def hexScanGo : Nat → List Nat → List (List Nat) → List (List Nat)
  | 0, _, res => res
  | _ + 1, [], res => res
  | fuel + 1, c :: rest, res =>
    if c == 60 then
      let run := rest.takeWhile isHexDigit
      if 8 ≤ run.length ∧ run.length ≤ 800 ∧ (rest.drop run.length).head? = some 62 then
        let decoded := cleanupText (decodePdfHexString run)
        let res' := if isUsefulText decoded then res ++ [decoded] else res
        if 3500 < (joinSep 32 res').length then res'
        else hexScanGo fuel ((rest.drop run.length).drop 1) res'
      else hexScanGo fuel rest res
    else hexScanGo fuel rest res

/-- `extractLiteralStrings` from pdf-extract.js: scan the first 400000
characters for literal strings, then for hex strings. -/
def extractLiteralStrings (streamText : List Nat) : List (List Nat) :=
  let s := streamText.take 400000
  hexScanGo s.length s (parenScanGo s.length s [])

/-- The next match of `stream\r?\n` at or after the given absolute index:
returns the match index and the index right after the match (the regex
`lastIndex`, which is where stream data starts). -/
def findStreamKwFrom : List Nat → Nat → Option (Nat × Nat)
  | [], _ => none
  | l@(_ :: rest), idx =>
    if (jstr "stream\r\n").isPrefixOf l then some (idx, idx + 8)
    else if (jstr "stream\n").isPrefixOf l then some (idx, idx + 7)
    else findStreamKwFrom rest (idx + 1)

/-- The stream loop of `extractTextFromEarlyStreams`: find the next
`stream` keyword (the regex cursor resumes at the previous match end), stop
once `maxStreams` streams were seen or `maxChars` characters accumulated,
look for `/FlateDecode` in the 2500 characters before the keyword, skip the
stream silently when inflation is required but fails or yields nothing, and
keep a stream's joined literal strings only when longer than 30
characters. -/
def streamLoopGo (l : List Nat) (maxStreamsN maxCharsN : Nat)
    (oracle : List Nat → Option (List Nat)) :
    Nat → Nat → Nat → Nat → List (List Nat) → List Nat
  | 0, _, _, _, out => joinSep 32 out
  | fuel + 1, pos, seen, total, out =>
    match findStreamKwFrom (l.drop pos) pos with
    | none => joinSep 32 out
    | some (idx, dataStart) =>
      if seen < maxStreamsN ∧ total < maxCharsN then
        match findSubFrom (jstr "endstream") (l.drop dataStart) dataStart with
        | none => joinSep 32 out
        | some endIdx =>
          let dictStart := idx - 2500
          let dictChunk := (l.drop dictStart).take (idx - dictStart)
          let raw := (l.drop dataStart).take (endIdx - dataStart)
          let decodedOpt : Option (List Nat) :=
            if jsIncludes (jstr "/FlateDecode") dictChunk then
              match oracle raw with
              | some d => if d.isEmpty then none else some d
              | none => none
            else some raw
          match decodedOpt with
          | none =>
            streamLoopGo l maxStreamsN maxCharsN oracle fuel dataStart (seen + 1) total out
          | some decoded =>
            let strings := extractLiteralStrings decoded
            let joined := joinSep 32 strings
            if !strings.isEmpty ∧ 30 < joined.length then
              streamLoopGo l maxStreamsN maxCharsN oracle fuel dataStart (seen + 1)
                (total + joined.length + 1) (out ++ [joined])
            else
              streamLoopGo l maxStreamsN maxCharsN oracle fuel dataStart (seen + 1) total out
      else joinSep 32 out

/-- `extractTextFromEarlyStreams` from pdf-extract.js (the latin1 view and
the byte buffer coincide in the model). -/
def extractTextFromEarlyStreams (bytes : List Nat) (maxCharsN maxStreamsN : Nat)
    (oracle : List Nat → Option (List Nat)) : List Nat :=
  streamLoopGo bytes maxStreamsN maxCharsN oracle (bytes.length + 1) 0 0 0 []

/-- Global literal replacement, one pass left to right, used for the XMP
entity decoding. -/
def replaceAllLit (pat repl : List Nat) : Nat → List Nat → List Nat
  | 0, l => l
  | _ + 1, [] => []
  | fuel + 1, l@(c :: rest) =>
    if !pat.isEmpty && pat.isPrefixOf l then
      repl ++ replaceAllLit pat repl fuel (l.drop pat.length)
    else c :: replaceAllLit pat repl fuel rest

/-- One pass of `replace(/<[^>]*>/g, ' ')`. -/
def stripXmlTagsGo : Nat → List Nat → List Nat
  | 0, l => l
  | _ + 1, [] => []
  | fuel + 1, c :: rest =>
    if c == 60 then
      let inner := rest.takeWhile fun n => n != 62
      if (rest.drop inner.length).head? = some 62 then
        32 :: stripXmlTagsGo fuel (rest.drop (inner.length + 1))
      else c :: stripXmlTagsGo fuel rest
    else c :: stripXmlTagsGo fuel rest

/-- `stripXmlTags` from pdf-extract.js. -/
def stripXmlTags (l : List Nat) : List Nat :=
  stripXmlTagsGo l.length l

/-- `decodeHtmlEntities` from pdf-extract.js: five sequential global
replaces, in source order. -/
def decodeHtmlEntities (l : List Nat) : List Nat :=
  let l1 := replaceAllLit (jstr "&amp;") (jstr "&") l.length l
  let l2 := replaceAllLit (jstr "&lt;") (jstr "<") l1.length l1
  let l3 := replaceAllLit (jstr "&gt;") (jstr ">") l2.length l2
  let l4 := replaceAllLit (jstr "&quot;") (jstr "\"") l3.length l3
  replaceAllLit (jstr "&#39;") (jstr "\x27") l4.length l4

/-- Case-insensitive literal prefix test (the pattern is lower case). -/
def ciHasPrefix (pat : List Nat) (l : List Nat) : Bool :=
  toLowerStr (l.take pat.length) == pat

/-- Case-insensitive `indexOf`. -/
def findCiSubFrom (pat : List Nat) : List Nat → Nat → Option Nat
  | [], idx => if pat.isEmpty then some idx else none
  | l@(_ :: rest), idx =>
    if ciHasPrefix pat l then some idx else findCiSubFrom pat rest (idx + 1)

/-- The `rdf:li` part of `extractXmpTitle`: first case-insensitive
`<rdf:li`, its attribute run up to `>`, then the lazy inner text up to the
first closing `<\x2frdf:li>`. -/
def xmpLiGo : Nat → List Nat → Option (List Nat)
  | 0, _ => none
  | _ + 1, [] => none
  | fuel + 1, l@(_ :: rest) =>
    if ciHasPrefix (jstr "<rdf:li") l then
      let after := l.drop 7
      let attrs := after.takeWhile fun n => n != 62
      if (after.drop attrs.length).head? = some 62 then
        let content := after.drop (attrs.length + 1)
        match findCiSubFrom (jstr "</rdf:li>") content 0 with
        | some j => some (content.take j)
        | none => xmpLiGo fuel rest
      else xmpLiGo fuel rest
    else xmpLiGo fuel rest

/-- `extractXmpTitle` from pdf-extract.js. -/
def extractXmpTitle (latin : List Nat) : List Nat :=
  match findSubFrom (jstr "<dc:title") latin 0 with
  | none => []
  | some start =>
    match findSubFrom (jstr "</dc:title>") (latin.drop start) start with
    | none => []
    | some endIdx =>
      let snippet := (latin.drop start).take (endIdx + 11 - start)
      let raw := (xmpLiGo snippet.length snippet).getD snippet
      jsTrim (decodeHtmlEntities (stripXmlTags raw))

/-- The scan for `\/Title\s*\(([^)]{1,300})\)`: at each occurrence of
`/Title`, skip white space, require an opening parenthesis and a run of
1–300 characters other than a closing parenthesis followed by one. -/
def infoTitleGo : Nat → List Nat → Option (List Nat)
  | 0, _ => none
  | _ + 1, [] => none
  | fuel + 1, l@(_ :: rest) =>
    if (jstr "/Title").isPrefixOf l then
      let after := (l.drop 6).dropWhile isSpaceCode
      match after with
      | 40 :: t =>
        let content := t.takeWhile fun n => n != 41
        if 1 ≤ content.length ∧ content.length ≤ 300 ∧
            (t.drop content.length).head? = some 41 then
          some content
        else infoTitleGo fuel rest
      | _ => infoTitleGo fuel rest
    else infoTitleGo fuel rest

/-- `extractInfoTitle` from pdf-extract.js. -/
def extractInfoTitle (latin : List Nat) : List Nat :=
  match infoTitleGo latin.length latin with
  | none => []
  | some content => decodePdfLiteralString content

/-- A JS number as it matters to `clampInt`: a finite rational or one of the
non-finite values (`NaN`, `±Infinity`). -/
inductive JsNum where
  | fin (q : ℚ)
  | nan
  | posInf
  | negInf
deriving Repr, DecidableEq

/-- `Number.isFinite`. -/
def jsIsFinite : JsNum → Bool
  | .fin _ => true
  | _ => false

/-- `clampInt` from pdf-extract.js: `Math.floor` of a finite value, the
lower bound for a non-finite one, clamped into `[lo, hi]`. -/
def clampInt (n : JsNum) (lo hi : Int) : Int :=
  let x : Int :=
    match n with
    | .fin q => Rat.floor q
    | _ => lo
  max lo (min hi x)

/-- The `opts` argument of `extractPdfPreviewText`; a missing field models
an absent property (picked up by `??`). -/
structure PdfOpts where
  maxChars : Option JsNum
  maxStreams : Option JsNum
deriving Repr, DecidableEq

/-- The effective `maxChars` limit: `clampInt(opts.maxChars ?? 2500, 200, 12000)`. -/
def effMaxChars (opts : PdfOpts) : Int :=
  clampInt (opts.maxChars.getD (JsNum.fin 2500)) 200 12000

/-- The effective `maxStreams` limit: `clampInt(opts.maxStreams ?? 12, 1, 100)`. -/
def effMaxStreams (opts : PdfOpts) : Int :=
  clampInt (opts.maxStreams.getD (JsNum.fin 12)) 1 100

/-- `extractPdfPreviewText` from pdf-extract.js. -/
def extractPdfPreviewText (bytes : List Nat) (opts : PdfOpts)
    (oracle : List Nat → Option (List Nat)) : List Nat × List Nat :=
  let maxCharsN := (effMaxChars opts).toNat
  let maxStreamsN := (effMaxStreams opts).toNat
  let latin := bytes
  let xmp := extractXmpTitle latin
  let info := extractInfoTitle latin
  let title := (cleanupText (if !xmp.isEmpty then xmp else info)).take 200
  let excerpt := (extractTextFromEarlyStreams latin maxCharsN maxStreamsN oracle).take maxCharsN
  (title, cleanupText excerpt)

/-!  ## Rate limiter and rename orchestrators.

`src/unnamed/part_005` is the current background service worker (it imports
`nameFromText`, which only `src/extension/hf-api.js` exports, so its
`captionToFilename` is the HfApi one); `src/unnamed/part_006` is the earlier
image-only background worker whose `./hf-api.js` is `src/unnamed/part_002`.
Both define the identical module-level rate limiter, modelled once.

Storage, badge, notification and network side effects are recorded as an
event trace; fallible external operations (fetch, image preparation, the
remote model calls, URL parsing, `DecompressionStream`) are supplied through
a `RenameEnv` record of oracle results. -/

/-- Module-level rate limiter state (`requestCount`, `requestTimestamp`). -/
structure RLState where
  requestCount : Nat
  requestTimestamp : Int
deriving Repr, DecidableEq

/-- `checkRateLimit` from part_005 lines 119–136 (identical in part_006):
reset the counter when strictly more than 60000 ms have elapsed, then fail
when the counter has reached the ceiling, else consume one unit.  The
mutated state is returned also on failure, as the JS module state would
be. -/
def checkRateLimit (now : Int) (maxPerMinute : Nat) (s : RLState) :
    RLState × Option (List Nat) :=
  let elapsed := now - s.requestTimestamp
  let s' := if 60000 < elapsed then { requestCount := 0, requestTimestamp := now } else s
  if maxPerMinute ≤ s'.requestCount then
    (s', some (jstr "Rate limit reached. Please wait " ++
      intToStr (ceilDiv1000 (60000 - elapsed)) ++ jstr " seconds."))
  else ({ s' with requestCount := s'.requestCount + 1 }, none)

/-- Observable side effects of one rename operation, in order. -/
inductive Ev where
  | history (success : Bool)
  | stats (success : Bool) (method : List Nat)
  | badge (text : List Nat)
  | notice (title message : List Nat) (success : Bool)
  | fetchReq (url : List Nat)
  | remoteCall (payload : List Nat)
deriving Repr, DecidableEq

/-- Is this event a HistoryEntry write (`addToHistory`)? -/
def Ev.isHist : Ev → Bool
  | .history _ => true
  | _ => false

/-- Is this event a Stats update (`updateStats`)? -/
def Ev.isStats : Ev → Bool
  | .stats _ _ => true
  | _ => false

/-- The `downloadItem` fields the rename paths read. -/
structure DlItem where
  filename : List Nat
  url : List Nat
  finalUrl : List Nat
  mime : List Nat
deriving Repr, DecidableEq

/-- Oracle results for the external operations of one rename. -/
structure RenameEnv where
  now : Int
  maxPerMinute : Nat
  today : List Nat
  fetchRaw : Except (List Nat) (List Nat)
  prepareResult : Except (List Nat) (List Nat)
  captionResult : Except (List Nat) (List Nat)
  nameResult : Except (List Nat) (List Nat)
  hostOf : List Nat → Option (List Nat)
  inflate : List Nat → Option (List Nat)
  imageTypes : List (List Nat)

/-- `fetchFile` (part_005) and `fetchImage` (part_006): propagate a network
failure, then reject buffers over `maxSize`.  (The error text's numeric
megabyte interpolation is elided.) -/
def fetchFile (raw : Except (List Nat) (List Nat)) (maxSize : Int) :
    Except (List Nat) (List Nat) :=
  match raw with
  | .error e => .error e
  | .ok buf =>
    if maxSize < (buf.length : Int) then .error (jstr "File too large")
    else .ok buf

/-- `getImageExtension` (part_005) / `getExtension` (part_006): extension of
the lower-cased filename when it is an image type, else a MIME fallback,
else `jpg`. -/
def getImageExtension (item : DlItem) (imageTypes : List (List Nat)) : List Nat :=
  let filename := toLowerStr item.filename
  let ext := (splitSep 46 filename).getLastD []
  if imageTypes.contains ext then ext
  else
    let mime := toLowerStr item.mime
    if mime == jstr "image/jpeg" then jstr "jpg"
    else if mime == jstr "image/png" then jstr "png"
    else if mime == jstr "image/webp" then jstr "webp"
    else if mime == jstr "image/gif" then jstr "gif"
    else jstr "jpg"

/-- Split on any of the given separator characters (JS `split(/[\\\x2f]/)`). -/
def splitAnySep (seps : List Nat) : List Nat → List (List Nat)
  | [] => [[]]
  | c :: rest =>
    if seps.contains c then [] :: splitAnySep seps rest
    else
      match splitAnySep seps rest with
      | [] => [[c]]
      | w :: ws => (c :: w) :: ws

/-- `stripExtension` from part_005: last path component (falling back to the
whole name when empty), without a final dot-extension. -/
def stripExtension (name : List Nat) : List Nat :=
  let b := (splitAnySep [92, 47] name).getLastD []
  let base := if b.isEmpty then name else b
  let rev := base.reverse
  let extRun := rev.takeWhile fun n => n != 46
  if 1 ≤ extRun.length ∧ (rev.drop extRun.length).head? = some 46 then
    (rev.drop (extRun.length + 1)).reverse
  else base

/-- `safeHostname` from part_005: `'unknown'` for a falsy URL or a URL the
host environment cannot parse. -/
def safeHostname (hostOf : List Nat → Option (List Nat)) (url : List Nat) : List Nat :=
  if url.isEmpty then jstr "unknown"
  else
    match hostOf url with
    | some h => h
    | none => jstr "unknown"

/-- `buildPdfPrompt` from part_005. -/
def buildPdfPrompt (title excerpt originalFilename : List Nat) (maxWords : Int) :
    List Nat :=
  let safeTitle := title.take 200
  let safeExcerpt := excerpt.take 2500
  jsTrim (jstr "Create a short, descriptive filename for a PDF.\nRules:\n- Output ONLY the filename words (no extension, no quotes, no extra text).\n- " ++
    intToStr (maxWords - 1) ++ jstr " to " ++ intToStr (maxWords + 2) ++
    jstr " words is OK; keep it short.\n- Prefer document title, topic, company name, invoice/reference numbers, and dates if present.\n- Avoid generic words like \"document\", \"file\", \"scan\" unless nothing else exists.\n- Use plain English words. No emojis.\n\nOriginal filename (hint): " ++
    originalFilename ++ jstr "\n\nTitle (if available): " ++ safeTitle ++
    jstr "\n\nExtracted text excerpt (from the beginning): " ++ safeExcerpt)

/-- `notify`: creates a notification only when `enableNotifications` is on
(both background workers share this helper verbatim). -/
def notifyEvs (settings : Settings) (title message : List Nat) (success : Bool) :
    List Ev :=
  if settings.enableNotifications then [Ev.notice title message success] else []

/-- The shared catch-block effects of part_005: one failure HistoryEntry,
one failure Stats update, the error badge and the optional notification. -/
def failEvs (settings : Settings) (e : List Nat) : List Ev :=
  [Ev.history false, Ev.stats false (jstr "error"), Ev.badge (jstr "✗")] ++
    notifyEvs settings (jstr "⚠ Rename Failed") e false

namespace Part005

/-- `renameImage` from part_005 lines 188–260: token gate, rate limit,
badge, fetch, the silent small-image skip, image preparation, the remote
caption call, slugification with the HfApi `captionToFilename`, then the
history/stats/badge/notification block; any failure funnels into the single
catch block. -/
def renameImage (settings : Settings) (item : DlItem) (env : RenameEnv) (rl : RLState) :
    Option (List Nat) × List Ev × RLState :=
  let url := if !item.finalUrl.isEmpty then item.finalUrl else item.url
  let ext := getImageExtension item env.imageTypes
  if settings.hfToken.isEmpty then
    (none, failEvs settings (jstr "API token not configured. Click extension icon to set up."), rl)
  else
    match checkRateLimit env.now env.maxPerMinute rl with
    | (rl', some e) => (none, failEvs settings e, rl')
    | (rl', none) =>
      let pre := [Ev.badge (jstr "..."), Ev.fetchReq url]
      match fetchFile env.fetchRaw settings.maxImageSize with
      | .error e => (none, pre ++ failEvs settings e, rl')
      | .ok buf =>
        if settings.skipSmallImages ∧ (buf.length : Int) < settings.minImageSize then
          (none, pre, rl')
        else
          match env.prepareResult with
          | .error e => (none, pre ++ failEvs settings e, rl')
          | .ok img =>
            match env.captionResult with
            | .error e => (none, pre ++ [Ev.remoteCall img] ++ failEvs settings e, rl')
            | .ok caption =>
              let basename := HfApi.captionToFilename caption settings env.today
              let finalName := basename ++ 46 :: ext
              (some finalName,
               pre ++ [Ev.remoteCall img, Ev.history true,
                 Ev.stats true (jstr "hf-api-image"), Ev.badge (jstr "✓")] ++
                 notifyEvs settings (jstr "✓ Image Renamed")
                   (basename ++ 10 :: 40 :: (caption ++ [41])) true,
               rl')

/-- `renamePdf` from part_005 lines 264–340: the `enablePdfRenaming` gate
returns before any other action, then token gate, rate limit, badge, fetch,
local PDF preview extraction, prompt construction, the remote text call,
slugification with the HfApi `captionToFilename`, and the same
history/stats/badge/notification funnel. -/
def renamePdf (settings : Settings) (item : DlItem) (env : RenameEnv) (rl : RLState) :
    Option (List Nat) × List Ev × RLState :=
  let url := if !item.finalUrl.isEmpty then item.finalUrl else item.url
  if !settings.enablePdfRenaming then (none, [], rl)
  else if settings.hfToken.isEmpty then
    (none, failEvs settings (jstr "API token not configured. Click extension icon to set up."), rl)
  else
    match checkRateLimit env.now env.maxPerMinute rl with
    | (rl', some e) => (none, failEvs settings e, rl')
    | (rl', none) =>
      let pre := [Ev.badge (jstr "PDF"), Ev.fetchReq url]
      match fetchFile env.fetchRaw settings.maxImageSize with
      | .error e => (none, pre ++ failEvs settings e, rl')
      | .ok buf =>
        let te := extractPdfPreviewText buf
          { maxChars := some (JsNum.fin (settings.pdfMaxChars : ℚ)),
            maxStreams := some (JsNum.fin (settings.pdfMaxStreams : ℚ)) } env.inflate
        let originalBase := stripExtension
          (if item.filename.isEmpty then jstr "document" else item.filename)
        let prompt := buildPdfPrompt te.1 te.2 originalBase
          (if settings.maxWords = 0 then 5 else settings.maxWords)
        match env.nameResult with
        | .error e => (none, pre ++ [Ev.remoteCall prompt] ++ failEvs settings e, rl')
        | .ok suggestion =>
          let basename := HfApi.captionToFilename suggestion settings env.today
          let finalName := basename ++ jstr ".pdf"
          (some finalName,
           pre ++ [Ev.remoteCall prompt, Ev.history true,
             Ev.stats true (jstr "hf-api-pdf"), Ev.badge (jstr "✓")] ++
             notifyEvs settings (jstr "✓ PDF Renamed")
               (basename ++ 10 :: 40 :: ((if te.1.isEmpty then jstr "PDF" else te.1) ++ [41]))
               true,
           rl')

/-- The image path's deliberate skip: token present, rate budget available,
fetch succeeded, `skipSmallImages` on and the buffer under the minimum
size — the one path of `renameImage` that returns without history or
stats. -/
def imageSkipped (settings : Settings) (env : RenameEnv) (rl : RLState) : Bool :=
  !settings.hfToken.isEmpty &&
  (checkRateLimit env.now env.maxPerMinute rl).2.isNone &&
  (match fetchFile env.fetchRaw settings.maxImageSize with
   | .ok buf => settings.skipSmallImages && decide ((buf.length : Int) < settings.minImageSize)
   | .error _ => false)

end Part005

namespace Part006

/-- The outcome of the part_006 catch block.  Unlike part_005, the catch
block itself evaluates `new URL(url).hostname` for a truthy URL, so when URL
parsing fails the TypeError escapes `renameImage` before any history or
stats write (`.error`); otherwise the usual failure funnel runs. -/
def failOutcome (settings : Settings) (env : RenameEnv) (url e : List Nat) :
    Except (List Nat) (Option (List Nat)) × List Ev :=
  if !url.isEmpty ∧ env.hostOf url = none then
    (.error (jstr "Invalid URL"), [])
  else
    (.ok none, failEvs settings e)

/-- `renameImage` from part_006 lines 164–253: same state machine as the
part_005 image path, but slugification uses the part_002
`captionToFilename`, the success Stats method tag is `hf-api`, and the
history hostnames come from bare `new URL(url).hostname` calls that can
throw.  part_002's `prepareImageForAPI` has its own catch-and-fallback, so
image preparation never fails here: a failed oracle falls back to the raw
buffer (standing for the un-resized base64 re-encoding). -/
def renameImage (settings : Settings) (item : DlItem) (env : RenameEnv) (rl : RLState) :
    Except (List Nat) (Option (List Nat)) × List Ev × RLState :=
  let url := if !item.finalUrl.isEmpty then item.finalUrl else item.url
  let ext := getImageExtension item env.imageTypes
  if settings.hfToken.isEmpty then
    let r := failOutcome settings env url
      (jstr "API token not configured. Click extension icon to set up.")
    (r.1, r.2, rl)
  else
    match checkRateLimit env.now env.maxPerMinute rl with
    | (rl', some e) =>
      let r := failOutcome settings env url e
      (r.1, r.2, rl')
    | (rl', none) =>
      let pre := [Ev.badge (jstr "..."), Ev.fetchReq url]
      match fetchFile env.fetchRaw settings.maxImageSize with
      | .error e =>
        let r := failOutcome settings env url e
        (r.1, pre ++ r.2, rl')
      | .ok buf =>
        if settings.skipSmallImages ∧ (buf.length : Int) < settings.minImageSize then
          (.ok none, pre, rl')
        else
          let img :=
            match env.prepareResult with
            | .ok i => i
            | .error _ => buf
          match env.captionResult with
          | .error e =>
            let r := failOutcome settings env url e
            (r.1, pre ++ [Ev.remoteCall img] ++ r.2, rl')
          | .ok caption =>
            let basename := Part002.captionToFilename caption settings env.today
            let finalName := basename ++ 46 :: ext
            match (if url.isEmpty then none else env.hostOf url) with
            | none =>
              let r := failOutcome settings env url (jstr "Invalid URL")
              (r.1, pre ++ [Ev.remoteCall img] ++ r.2, rl')
            | some _h =>
              (.ok (some finalName),
               pre ++ [Ev.remoteCall img, Ev.history true,
                 Ev.stats true (jstr "hf-api"), Ev.badge (jstr "✓")] ++
                 notifyEvs settings (jstr "✓ Image Renamed")
                   (basename ++ 10 :: 40 :: (caption ++ [41])) true,
               rl')

end Part006

/-!  ## The slug regular expression and kebab invariants.

`matchesSlugRe` formalises the specification regex `^[a-z0-9]+(-[a-z0-9]+)*$`
through the split on `-`: a string matches exactly when it is non-empty and
every `-`-separated chunk is a non-empty `[a-z0-9]` word. -/

/-- One chunk of the slug regex: `[a-z0-9]+`. -/
def slugChunkOk (w : List Nat) : Bool :=
  !w.isEmpty && w.all isLowerAlnum

/-- The specification regex `^[a-z0-9]+(-[a-z0-9]+)*$`. -/
def matchesSlugRe (l : List Nat) : Bool :=
  !l.isEmpty && (splitSep 45 l).all slugChunkOk

/-- No two adjacent hyphens. -/
def noAdj : List Nat → Bool
  | a :: b :: t => !(a == 45 && b == 45) && noAdj (b :: t)
  | _ => true

/-- The first character, if any, is not a hyphen. -/
def headNot45 : List Nat → Bool
  | c :: _ => c != 45
  | [] => true

/-- The last character, if any, is not a hyphen. -/
def lastNot45 : List Nat → Bool
  | [] => true
  | [c] => c != 45
  | _ :: b :: t => lastNot45 (b :: t)

/-- The invariant carried through the part_002 kebab pipeline. -/
abbrev GoodKebab (l : List Nat) : Prop :=
  (∀ c ∈ l, isLowerAlnum c = true ∨ c = 45) ∧ noAdj l = true ∧
    headNot45 l = true ∧ lastNot45 l = true

/-- The character set of the hf-api.js slugifier's output. -/
def hfOutChar (n : Nat) : Bool :=
  isLowerAlnum n || n == 95 || n == 45

theorem splitSep_ne_nil (s : Nat) (l : List Nat) : splitSep s l ≠ [] := by
  match l with
  | [] => simp [splitSep]
  | c :: rest =>
    rw [splitSep]
    split
    · simp
    · have h := splitSep_ne_nil s rest
      match hs : splitSep s rest with
      | [] => exact absurd hs h
      | w :: ws => simp

theorem splitSep_append (s : Nat) (a b : List Nat) :
    splitSep s (a ++ s :: b) = splitSep s a ++ splitSep s b := by
  induction a with
  | nil => simp [splitSep]
  | cons c rest ih =>
    by_cases hc : c == s
    · simp only [List.cons_append, splitSep, hc, if_pos]
      rw [List.append_eq, ih]
    · simp only [List.cons_append, splitSep, hc, if_neg, Bool.false_eq_true,
        not_false_iff]
      rw [List.append_eq, ih]
      have h := splitSep_ne_nil s rest
      match hs : splitSep s rest with
      | [] => exact absurd hs h
      | w :: ws => simp

theorem mem_of_mem_splitSep {s : Nat} {l : List Nat} {w : List Nat} {c : Nat}
    (hw : w ∈ splitSep s l) (hc : c ∈ w) : c ∈ l := by
  match l with
  | [] =>
    simp [splitSep] at hw
    subst hw
    simp at hc
  | d :: rest =>
    rw [splitSep] at hw
    split at hw
    · rcases List.mem_cons.mp hw with h | h
      · subst h; simp at hc
      · exact List.mem_cons_of_mem _ (mem_of_mem_splitSep h hc)
    · revert hw
      match hs : splitSep s rest with
      | [] => exact absurd hs (splitSep_ne_nil s rest)
      | v :: vs =>
        intro hw
        rcases List.mem_cons.mp hw with h | h
        · subst h
          rcases List.mem_cons.mp hc with h' | h'
          · subst h'; exact List.mem_cons_self _ _
          · exact List.mem_cons_of_mem _
              (mem_of_mem_splitSep (l := rest) (by rw [hs]; exact List.mem_cons_self _ _) h')
        · exact List.mem_cons_of_mem _
            (mem_of_mem_splitSep (l := rest) (by rw [hs]; exact List.mem_cons_of_mem _ h) hc)

theorem ne_sep_of_mem_splitSep {s : Nat} {l : List Nat} {w : List Nat} {c : Nat}
    (hw : w ∈ splitSep s l) (hc : c ∈ w) : c ≠ s := by
  match l with
  | [] =>
    simp [splitSep] at hw
    subst hw
    simp at hc
  | d :: rest =>
    rw [splitSep] at hw
    split at hw
    · rcases List.mem_cons.mp hw with h | h
      · subst h; simp at hc
      · exact ne_sep_of_mem_splitSep h hc
    · next hd =>
      revert hw
      match hs : splitSep s rest with
      | [] => exact absurd hs (splitSep_ne_nil s rest)
      | v :: vs =>
        intro hw
        rcases List.mem_cons.mp hw with h | h
        · subst h
          rcases List.mem_cons.mp hc with h' | h'
          · subst h'
            intro hcs
            exact hd (by simp [hcs])
          · exact ne_sep_of_mem_splitSep (l := rest)
              (by rw [hs]; exact List.mem_cons_self _ _) h'
        · exact ne_sep_of_mem_splitSep (l := rest)
            (by rw [hs]; exact List.mem_cons_of_mem _ h) hc

theorem mem_joinSep {j : Nat} {ws : List (List Nat)} {c : Nat}
    (hc : c ∈ joinSep j ws) : c = j ∨ ∃ w ∈ ws, c ∈ w := by
  match ws with
  | [] => simp [joinSep] at hc
  | [w] =>
    simp only [joinSep] at hc
    exact Or.inr ⟨w, List.mem_cons_self _ _, hc⟩
  | w :: v :: t =>
    simp only [joinSep, List.mem_append, List.mem_cons] at hc
    rcases hc with h | h | h
    · exact Or.inr ⟨w, List.mem_cons_self _ _, h⟩
    · exact Or.inl h
    · rcases @mem_joinSep j (v :: t) c h with h' | ⟨u, hu, hcu⟩
      · exact Or.inl h'
      · exact Or.inr ⟨u, List.mem_cons_of_mem _ hu, hcu⟩

theorem collapseRuns_mem {p : Nat → Bool} {r : Nat} {l : List Nat} {c : Nat}
    (hc : c ∈ collapseRuns p r l) : c = r ∨ (c ∈ l ∧ p c = false) := by
  match l with
  | [] => simp [collapseRuns] at hc
  | [a] =>
    simp only [collapseRuns] at hc
    split at hc
    · simp at hc; exact Or.inl hc
    · next h =>
      simp at hc
      subst hc
      exact Or.inr ⟨List.mem_cons_self _ _, by simpa using h⟩
  | a :: b :: t =>
    simp only [collapseRuns] at hc
    split at hc
    · rcases collapseRuns_mem (l := b :: t) hc with h | ⟨hm, hp⟩
      · exact Or.inl h
      · exact Or.inr ⟨List.mem_cons_of_mem _ hm, hp⟩
    · rcases List.mem_cons.mp hc with h | h
      · subst h
        split
        · exact Or.inl rfl
        · next hpa => exact Or.inr ⟨List.mem_cons_self _ _, by simpa using hpa⟩
      · rcases collapseRuns_mem (l := b :: t) h with h' | ⟨hm, hp⟩
        · exact Or.inl h'
        · exact Or.inr ⟨List.mem_cons_of_mem _ hm, hp⟩

theorem noAdj_nil : noAdj [] = true := rfl

theorem noAdj_single (a : Nat) : noAdj [a] = true := rfl

theorem noAdj_cons_cons {a b : Nat} {t : List Nat} :
    noAdj (a :: b :: t) = (!(a == 45 && b == 45) && noAdj (b :: t)) := rfl

theorem noAdj_tail {a : Nat} {l : List Nat} (h : noAdj (a :: l) = true) :
    noAdj l = true := by
  match l with
  | [] => rfl
  | b :: t =>
    rw [noAdj_cons_cons] at h
    exact (Bool.and_eq_true_iff.mp h).2

theorem noAdj_cons_of_head {x : Nat} {l : List Nat}
    (h : ∀ y, l.head? = some y → x ≠ 45 ∨ y ≠ 45) (hl : noAdj l = true) :
    noAdj (x :: l) = true := by
  match l with
  | [] => rfl
  | b :: t =>
    rw [noAdj_cons_cons, Bool.and_eq_true_iff]
    refine ⟨?_, hl⟩
    rcases h b rfl with h' | h' <;> simp [h']

theorem collapseRuns45_head {b : Nat} {t : List Nat} (hb : b ≠ 45) :
    (collapseRuns (fun n => n == 45) 45 (b :: t)).head? = some b := by
  match t with
  | [] => simp [collapseRuns, hb]
  | c :: t' =>
    simp only [collapseRuns]
    have : (b == 45) = false := by simpa using hb
    simp [this]

theorem noAdj_collapseRuns45 (l : List Nat) :
    noAdj (collapseRuns (fun n => n == 45) 45 l) = true := by
  match l with
  | [] => rfl
  | [a] =>
    by_cases h : a == 45 <;> simp [collapseRuns, h, noAdj]
  | a :: b :: t =>
    have ih := noAdj_collapseRuns45 (b :: t)
    simp only [collapseRuns]
    split
    · exact ih
    · next hab =>
      refine noAdj_cons_of_head ?_ ih
      intro y hy
      by_cases hb : b = 45
      · have ha : a ≠ 45 := fun ha => hab (by simp [ha, hb])
        have ha' : (a == 45) = false := by simpa using ha
        exact Or.inl (by simpa [ha'] using ha)
      · rw [collapseRuns45_head hb] at hy
        have hyb : y = b := by simpa using hy.symm
        exact Or.inr (hyb ▸ hb)

theorem lastNot45_cons {a : Nat} {r : List Nat} (h : r ≠ []) :
    lastNot45 (a :: r) = lastNot45 r := by
  match r with
  | [] => exact absurd rfl h
  | b :: t => rfl

theorem mem_dropLeadHyphen {l : List Nat} {c : Nat} (h : c ∈ Part002.dropLeadHyphen l) :
    c ∈ l := by
  match l with
  | [] => simpa [Part002.dropLeadHyphen] using h
  | d :: t =>
    simp only [Part002.dropLeadHyphen] at h
    split at h
    · exact List.mem_cons_of_mem _ h
    · exact h

theorem noAdj_dropLeadHyphen {l : List Nat} (h : noAdj l = true) :
    noAdj (Part002.dropLeadHyphen l) = true := by
  match l with
  | [] => rfl
  | d :: t =>
    simp only [Part002.dropLeadHyphen]
    split
    · exact noAdj_tail h
    · exact h

theorem headNot45_dropLeadHyphen {l : List Nat} (h : noAdj l = true) :
    headNot45 (Part002.dropLeadHyphen l) = true := by
  match l with
  | [] => rfl
  | d :: t =>
    simp only [Part002.dropLeadHyphen]
    split
    · next hd =>
      match t with
      | [] => rfl
      | e :: t' =>
        rw [noAdj_cons_cons] at h
        have := (Bool.and_eq_true_iff.mp h).1
        have hd' : d = 45 := by simpa using hd
        simp only [headNot45]
        simp only [hd'] at this
        simpa using this
    · next hd => simpa [headNot45] using hd

theorem mem_dropLastHyphen {l : List Nat} {c : Nat} (h : c ∈ Part002.dropLastHyphen l) :
    c ∈ l := by
  match l with
  | [] => simpa [Part002.dropLastHyphen] using h
  | [d] =>
    simp only [Part002.dropLastHyphen] at h
    split at h
    · simp at h
    · exact h
  | a :: b :: t =>
    simp only [Part002.dropLastHyphen] at h
    rcases List.mem_cons.mp h with h' | h'
    · simp [h']
    · exact List.mem_cons_of_mem _ (mem_dropLastHyphen h')

theorem head?_dropLastHyphen {l : List Nat} {y : Nat}
    (h : (Part002.dropLastHyphen l).head? = some y) : l.head? = some y := by
  match l with
  | [] => simp [Part002.dropLastHyphen] at h
  | [d] =>
    simp only [Part002.dropLastHyphen] at h
    split at h
    · simp at h
    · simpa using h
  | a :: b :: t =>
    simp only [Part002.dropLastHyphen, List.head?_cons] at h ⊢
    exact h

theorem noAdj_dropLastHyphen {l : List Nat} (h : noAdj l = true) :
    noAdj (Part002.dropLastHyphen l) = true := by
  match l with
  | [] => rfl
  | [d] =>
    simp only [Part002.dropLastHyphen]
    split <;> rfl
  | a :: b :: t =>
    simp only [Part002.dropLastHyphen]
    refine noAdj_cons_of_head ?_ (noAdj_dropLastHyphen (noAdj_tail h))
    intro y hy
    have hb : (b :: t).head? = some y := head?_dropLastHyphen hy
    have hby : b = y := by simpa using hb
    rw [noAdj_cons_cons] at h
    have hp := (Bool.and_eq_true_iff.mp h).1
    by_cases ha : a = 45
    · right
      intro hy45
      rw [ha, hby, hy45] at hp
      simp at hp
    · exact Or.inl ha

theorem headNot45_dropLastHyphen {l : List Nat} (h : headNot45 l = true) :
    headNot45 (Part002.dropLastHyphen l) = true := by
  match l with
  | [] => rfl
  | [d] =>
    simp only [Part002.dropLastHyphen]
    split
    · rfl
    · exact h
  | a :: b :: t =>
    simpa only [Part002.dropLastHyphen, headNot45] using h

theorem lastNot45_dropLastHyphen {l : List Nat} (h : noAdj l = true) :
    lastNot45 (Part002.dropLastHyphen l) = true := by
  match l with
  | [] => rfl
  | [d] =>
    simp only [Part002.dropLastHyphen]
    split
    · rfl
    · next hd => simpa [lastNot45] using hd
  | a :: b :: t =>
    simp only [Part002.dropLastHyphen]
    rcases hr : Part002.dropLastHyphen (b :: t) with _ | ⟨x, r⟩
    · -- the tail dropped to nothing: b :: t = [45], so noAdj gives a ≠ 45
      match t with
      | [] =>
        simp only [Part002.dropLastHyphen] at hr
        split at hr
        · next hb =>
          rw [noAdj_cons_cons] at h
          have := (Bool.and_eq_true_iff.mp h).1
          have hb' : b = 45 := by simpa using hb
          simp only [hb'] at this
          simpa [lastNot45] using (by simpa using this : ¬a = 45)
        · simp at hr
      | c :: t' =>
        simp only [Part002.dropLastHyphen] at hr
        simp at hr
    · rw [lastNot45_cons (by simp)]
      rw [← hr]
      exact lastNot45_dropLastHyphen (noAdj_tail h)

theorem length_dropTrailHyphens (l : List Nat) :
    (Part002.dropTrailHyphens l).length ≤ l.length := by
  match l with
  | [] => simp [Part002.dropTrailHyphens]
  | c :: rest =>
    have ih := length_dropTrailHyphens rest
    rcases hr : Part002.dropTrailHyphens rest with _ | ⟨x, r⟩
    · simp only [Part002.dropTrailHyphens, hr]
      by_cases hc : c == 45 <;> simp [hc]
    · simp only [Part002.dropTrailHyphens, hr]
      rw [hr] at ih
      simpa using Nat.succ_le_succ ih

theorem mem_dropTrailHyphens {l : List Nat} {c : Nat}
    (h : c ∈ Part002.dropTrailHyphens l) : c ∈ l := by
  match l with
  | [] => simpa [Part002.dropTrailHyphens] using h
  | d :: rest =>
    rcases hr : Part002.dropTrailHyphens rest with _ | ⟨x, r⟩
    · simp only [Part002.dropTrailHyphens, hr] at h
      by_cases hd : d == 45
      · simp [hd] at h
      · simp [hd] at h
        simp [h]
    · simp only [Part002.dropTrailHyphens, hr] at h
      rcases List.mem_cons.mp h with h' | h'
      · simp [h']
      · exact List.mem_cons_of_mem _ (mem_dropTrailHyphens (hr ▸ h'))

theorem head?_dropTrailHyphens {l : List Nat} {y : Nat}
    (h : (Part002.dropTrailHyphens l).head? = some y) : l.head? = some y := by
  match l with
  | [] => simp [Part002.dropTrailHyphens] at h
  | d :: rest =>
    rcases hr : Part002.dropTrailHyphens rest with _ | ⟨x, r⟩
    · simp only [Part002.dropTrailHyphens, hr] at h
      by_cases hd : d == 45
      · simp [hd] at h
      · simp [hd] at h
        simp [h]
    · simp only [Part002.dropTrailHyphens, hr] at h
      simpa using h

theorem noAdj_dropTrailHyphens {l : List Nat} (h : noAdj l = true) :
    noAdj (Part002.dropTrailHyphens l) = true := by
  match l with
  | [] => rfl
  | d :: rest =>
    rcases hr : Part002.dropTrailHyphens rest with _ | ⟨x, r⟩
    · simp only [Part002.dropTrailHyphens, hr]
      by_cases hd : d == 45 <;> simp [hd, noAdj]
    · simp only [Part002.dropTrailHyphens, hr]
      refine noAdj_cons_of_head ?_ ?_
      · intro y hy
        have hry : rest.head? = some y := head?_dropTrailHyphens (hr ▸ hy)
        match rest, hry, h with
        | b :: t, hb, h =>
          have hby : b = y := by simpa using hb
          rw [noAdj_cons_cons] at h
          have hp := (Bool.and_eq_true_iff.mp h).1
          by_cases hd : d = 45
          · right
            intro hy45
            rw [hd, hby, hy45] at hp
            simp at hp
          · exact Or.inl hd
      · exact hr ▸ noAdj_dropTrailHyphens (noAdj_tail h)

theorem lastNot45_dropTrailHyphens (l : List Nat) :
    lastNot45 (Part002.dropTrailHyphens l) = true := by
  match l with
  | [] => rfl
  | d :: rest =>
    rcases hr : Part002.dropTrailHyphens rest with _ | ⟨x, r⟩
    · simp only [Part002.dropTrailHyphens, hr]
      by_cases hd : d == 45
      · simp [hd, lastNot45]
      · simp only [hd]
        simpa [lastNot45] using by simpa using hd
    · simp only [Part002.dropTrailHyphens, hr]
      rw [lastNot45_cons (by simp)]
      rw [← hr]
      exact lastNot45_dropTrailHyphens rest

theorem noAdj_take (n : Nat) {l : List Nat} (h : noAdj l = true) :
    noAdj (l.take n) = true := by
  match n, l with
  | 0, _ => rfl
  | _ + 1, [] => rfl
  | n + 1, a :: rest =>
    rw [List.take_succ_cons]
    refine noAdj_cons_of_head ?_ (noAdj_take n (noAdj_tail h))
    intro y hy
    cases n with
    | zero => simp at hy
    | succ n' =>
      cases rest with
      | nil => simp at hy
      | cons b t =>
        rw [List.take_succ_cons] at hy
        have hby : b = y := by simpa using hy
        rw [noAdj_cons_cons] at h
        have hp := (Bool.and_eq_true_iff.mp h).1
        by_cases ha : a = 45
        · right
          intro hy45
          rw [ha, hby, hy45] at hp
          simp at hp
        · exact Or.inl ha

theorem headNot45_take (n : Nat) {l : List Nat} (h : headNot45 l = true) :
    headNot45 (l.take n) = true := by
  match n, l with
  | 0, _ => rfl
  | _ + 1, [] => rfl
  | n + 1, a :: rest => simpa [headNot45] using h

theorem headNot45_of_no45 {l : List Nat} (h : ∀ c ∈ l, c ≠ 45) :
    headNot45 l = true := by
  match l with
  | [] => rfl
  | a :: t => simpa [headNot45] using h a (List.mem_cons_self _ _)

theorem lastNot45_of_no45 {l : List Nat} (h : ∀ c ∈ l, c ≠ 45) :
    lastNot45 l = true := by
  match l with
  | [] => rfl
  | [a] => simpa [lastNot45] using h a (List.mem_cons_self _ _)
  | a :: b :: t =>
    rw [lastNot45_cons (by simp)]
    exact lastNot45_of_no45 fun c hc => h c (List.mem_cons_of_mem _ hc)

theorem noAdj_of_no45 {l : List Nat} (h : ∀ c ∈ l, c ≠ 45) : noAdj l = true := by
  match l with
  | [] => rfl
  | [a] => rfl
  | a :: b :: t =>
    rw [noAdj_cons_cons, Bool.and_eq_true_iff]
    constructor
    · have := h a (List.mem_cons_self _ _)
      simp [this]
    · exact noAdj_of_no45 fun c hc => h c (List.mem_cons_of_mem _ hc)

theorem splitSep_cons (s c : Nat) (rest : List Nat) :
    splitSep s (c :: rest) =
      if c == s then [] :: splitSep s rest
      else
        match splitSep s rest with
        | [] => [[c]]
        | w :: ws => (c :: w) :: ws := rfl

/-- A string satisfying the kebab invariant splits into non-empty `[a-z0-9]`
chunks. -/
theorem chunks_ok : ∀ l : List Nat,
    (∀ c ∈ l, isLowerAlnum c = true ∨ c = 45) → noAdj l = true →
    headNot45 l = true → lastNot45 l = true → l ≠ [] →
    (splitSep 45 l).all slugChunkOk = true
  | [], _, _, _, _, hne => absurd rfl hne
  | [c], hchars, _, hhead, _, _ => by
    have hc45 : c ≠ 45 := by simpa [headNot45] using hhead
    have hca : isLowerAlnum c = true := by
      rcases hchars c (List.mem_cons_self _ _) with h | h
      · exact h
      · exact absurd h hc45
    have : (c == 45) = false := by simpa using hc45
    simp [splitSep, this, slugChunkOk, hca]
  | c :: d :: t, hchars, hadj, hhead, hlast, _ => by
    have hc45 : c ≠ 45 := by simpa [headNot45] using hhead
    have hc45' : (c == 45) = false := by simpa using hc45
    have hca : isLowerAlnum c = true := by
      rcases hchars c (List.mem_cons_self _ _) with h | h
      · exact h
      · exact absurd h hc45
    by_cases hd : d = 45
    · -- a hyphen right after the head: the first chunk is [c]
      have ht_ne : t ≠ [] := by
        intro ht
        subst ht hd
        simp [lastNot45] at hlast
      have hth : headNot45 t = true := by
        match t, ht_ne with
        | e :: t', _ =>
          have := (Bool.and_eq_true_iff.mp
            (noAdj_cons_cons ▸ noAdj_tail hadj)).1
          subst hd
          simpa [headNot45] using by simpa using this
      have ihall := chunks_ok t
        (fun x hx => hchars x (List.mem_cons_of_mem _ (List.mem_cons_of_mem _ hx)))
        (noAdj_tail (noAdj_tail hadj)) hth
        (by
          have h1 : lastNot45 (c :: d :: t) = lastNot45 (d :: t) :=
            lastNot45_cons (by simp)
          have h2 : lastNot45 (d :: t) = lastNot45 t := lastNot45_cons ht_ne
          rw [h1, h2] at hlast
          exact hlast) ht_ne
      subst hd
      simp only [splitSep, hc45', Bool.false_eq_true, if_neg, not_false_iff]
      simp only [show (45 == 45) = true from rfl, if_pos]
      have hsp := splitSep_ne_nil 45 t
      match hs : splitSep 45 t with
      | [] => exact absurd hs hsp
      | w :: ws =>
        rw [hs] at ihall
        simp only [List.all_cons, Bool.and_eq_true_iff]
        refine ⟨by simp [slugChunkOk, hca], ?_⟩
        simpa using ihall
    · -- no hyphen: c joins the first chunk of the tail's split
      have hd45' : (d == 45) = false := by simpa using hd
      have hdh : headNot45 (d :: t) = true := by simpa [headNot45] using hd
      have ihall := chunks_ok (d :: t)
        (fun x hx => hchars x (List.mem_cons_of_mem _ hx))
        (noAdj_tail hadj) hdh
        (by rwa [lastNot45_cons (by simp)] at hlast) (by simp)
      rcases hs : splitSep 45 (d :: t) with _ | ⟨w, ws⟩
      · exact absurd hs (splitSep_ne_nil 45 (d :: t))
      · rw [hs] at ihall
        rw [splitSep_cons]
        simp only [hc45', Bool.false_eq_true, if_neg, not_false_iff, hs]
        simp only [List.all_cons, Bool.and_eq_true_iff] at ihall ⊢
        refine ⟨?_, ihall.2⟩
        have hw := ihall.1
        simp only [slugChunkOk, Bool.and_eq_true_iff] at hw ⊢
        exact ⟨by simp, by rw [List.all_cons, Bool.and_eq_true_iff]; exact ⟨hca, hw.2⟩⟩

/-- Appending to a non-empty tail keeps the last character. -/
theorem lastNot45_append {w r : List Nat} (hne : r ≠ []) :
    lastNot45 (w ++ r) = lastNot45 r := by
  induction w with
  | nil => rfl
  | cons a w' ih =>
    rw [List.cons_append, lastNot45_cons (by simp [hne]), ih]

/-- A hyphen-free block, a hyphen, and a kebab tail have no adjacent
hyphens. -/
theorem noAdj_append_45 {w r : List Nat} (hno45 : ∀ c ∈ w, c ≠ 45)
    (hadj : noAdj r = true) (hhead : headNot45 r = true) (hne : r ≠ []) :
    noAdj (w ++ 45 :: r) = true := by
  induction w with
  | nil =>
    rw [List.nil_append]
    refine noAdj_cons_of_head ?_ hadj
    intro y hy
    right
    intro hy45
    match r, hy with
    | b :: t, hy =>
      have : b = y := by simpa using hy
      rw [this, hy45] at hhead
      simp [headNot45] at hhead
  | cons a w' ih =>
    rw [List.cons_append]
    refine noAdj_cons_of_head (fun y _ => Or.inl (hno45 a (List.mem_cons_self _ _))) ?_
    exact ih fun c hc => hno45 c (List.mem_cons_of_mem _ hc)

/-- Joining non-empty `[a-z0-9]` chunks with hyphens yields a kebab-invariant
non-empty string. -/
theorem joinHyphens_good : ∀ ws : List (List Nat),
    ws.all slugChunkOk = true → ws ≠ [] →
    GoodKebab (joinHyphens ws) ∧ joinHyphens ws ≠ []
  | [], _, hne => absurd rfl hne
  | [w], hall, _ => by
    have hw : slugChunkOk w = true := by simpa using hall
    simp only [slugChunkOk, Bool.and_eq_true_iff] at hw
    have hchars : ∀ c ∈ w, isLowerAlnum c = true :=
      (List.all_eq_true).mp hw.2
    have hno45 : ∀ c ∈ w, c ≠ 45 := by
      intro c hc h45
      have := hchars c hc
      rw [h45] at this
      simp [isLowerAlnum, isLowerAlpha, isDigitCode] at this
    have hne : w ≠ [] := by simpa using hw.1
    have hjw : joinHyphens [w] = w := rfl
    rw [hjw]
    exact ⟨⟨fun c hc => Or.inl (hchars c hc), noAdj_of_no45 hno45,
      headNot45_of_no45 hno45, lastNot45_of_no45 hno45⟩, hne⟩
  | w :: v :: t, hall, _ => by
    simp only [List.all_cons, Bool.and_eq_true_iff] at hall
    have hw := hall.1
    have hv := hall.2.1
    have ht := hall.2.2
    simp only [slugChunkOk, Bool.and_eq_true_iff] at hw
    have hchars : ∀ c ∈ w, isLowerAlnum c = true :=
      (List.all_eq_true).mp hw.2
    have hno45 : ∀ c ∈ w, c ≠ 45 := by
      intro c hc h45
      have := hchars c hc
      rw [h45] at this
      simp [isLowerAlnum, isLowerAlpha, isDigitCode] at this
    have hwne : w ≠ [] := by simpa using hw.1
    have ih := joinHyphens_good (v :: t) (by simp [hv, ht]) (by simp)
    have ichars := ih.1.1
    have iadj := ih.1.2.1
    have ihead := ih.1.2.2.1
    have ilast := ih.1.2.2.2
    have ine := ih.2
    have hjoin : joinHyphens (w :: v :: t) = w ++ 45 :: joinHyphens (v :: t) := by
      simp [joinHyphens, joinSep]
    rw [hjoin]
    refine ⟨⟨?_, ?_, ?_, ?_⟩, by simp⟩
    · intro c hc
      rcases List.mem_append.mp hc with h | h
      · exact Or.inl (hchars c h)
      · rcases List.mem_cons.mp h with h' | h'
        · exact Or.inr h'
        · exact ichars c h'
    · exact noAdj_append_45 hno45 iadj ihead ine
    · match w, hwne with
      | a :: w', _ =>
        have ha : a ≠ 45 := hno45 a (List.mem_cons_self _ _)
        simpa [headNot45] using ha
    · rw [lastNot45_append (by simp), lastNot45_cons ine]
      exact ilast

theorem headNot45_dropTrailHyphens {l : List Nat} (h : headNot45 l = true) :
    headNot45 (Part002.dropTrailHyphens l) = true := by
  rcases hr : Part002.dropTrailHyphens l with _ | ⟨x, r⟩
  · rfl
  · have hx : l.head? = some x := head?_dropTrailHyphens (by rw [hr]; rfl)
    match l, hx, h with
    | c :: t, hx, h =>
      have : c = x := by simpa using hx
      simpa [headNot45, ← this] using h

/-- The part_002 kebab value always satisfies the kebab invariant. -/
theorem kebabCore_good (base : List Nat) :
    GoodKebab (Part002.dropLastHyphen (Part002.dropLeadHyphen
      (collapseRuns (fun n => n == 45) 45 (collapseRuns isSpaceCode 45
        (base.filter fun n => isLowerAlnum n || isSpaceCode n || n == 45))))) := by
  refine ⟨?_, ?_, ?_, ?_⟩
  · intro c hc
    have hc2 := mem_dropLeadHyphen (mem_dropLastHyphen hc)
    rcases collapseRuns_mem hc2 with h | ⟨hmem, hne⟩
    · exact Or.inr h
    · rcases collapseRuns_mem hmem with h | ⟨hmem', hsp⟩
      · exact Or.inr h
      · have := List.of_mem_filter hmem'
        simp only [Bool.or_eq_true] at this
        rcases this with (h | h) | h
        · exact Or.inl h
        · rw [h] at hsp; simp at hsp
        · exact Or.inr (by simpa using h)
  · exact noAdj_dropLastHyphen (noAdj_dropLeadHyphen (noAdj_collapseRuns45 _))
  · exact headNot45_dropLastHyphen (headNot45_dropLeadHyphen (noAdj_collapseRuns45 _))
  · exact lastNot45_dropLastHyphen (noAdj_dropLeadHyphen (noAdj_collapseRuns45 _))

theorem kebab_good (caption : List Nat) (clean : Bool) :
    GoodKebab (Part002.kebab caption clean) :=
  kebabCore_good _

theorem all_slugChunkOk_take {ws : List (List Nat)} (h : ws.all slugChunkOk = true)
    (k : Nat) : (ws.take k).all slugChunkOk = true := by
  rw [List.all_eq_true] at h ⊢
  exact fun w hw => h w (List.take_subset k ws hw)

/-- The word limit preserves the kebab invariant. -/
theorem limitWords_good {l : List Nat} (m : Int) (h : GoodKebab l) :
    GoodKebab (Part002.limitWords l m) := by
  unfold Part002.limitWords
  split
  · next hm =>
    dsimp only
    split
    · next hlen =>
      by_cases hl : l = []
      · exfalso
        subst hl
        simp [splitSep] at hlen
        omega
      · have hall := chunks_ok l h.1 h.2.1 h.2.2.1 h.2.2.2 hl
        have hk : 1 ≤ m.toNat := by omega
        refine (joinHyphens_good _ (all_slugChunkOk_take hall _) ?_).1
        have hstop : (if m < 0 then ((splitSep 45 l).length : Int) + m else m) = m :=
          if_neg (by omega)
        show ((splitSep 45 l).take
          (if m < 0 then ((splitSep 45 l).length : Int) + m else m).toNat) ≠ []
        rw [hstop]
        have hsp := splitSep_ne_nil 45 l
        rcases hws : splitSep 45 l with _ | ⟨w, ws⟩
        · exact absurd hws hsp
        · rcases hn : m.toNat with _ | k
          · omega
          · simp
    · exact h
  · exact h

/-- The length cap preserves the kebab invariant and bounds the length. -/
theorem capLength_good {l : List Nat} (h : GoodKebab l) :
    GoodKebab (Part002.capLength l) ∧ (Part002.capLength l).length ≤ 60 := by
  unfold Part002.capLength
  split
  · next hlen =>
    refine ⟨⟨?_, ?_, ?_, ?_⟩, ?_⟩
    · intro c hc
      exact h.1 c (List.take_subset 60 l (mem_dropTrailHyphens hc))
    · exact noAdj_dropTrailHyphens (noAdj_take 60 h.2.1)
    · exact headNot45_dropTrailHyphens (headNot45_take 60 h.2.2.1)
    · exact lastNot45_dropTrailHyphens _
    · calc (Part002.dropTrailHyphens (l.take 60)).length
          ≤ (l.take 60).length := length_dropTrailHyphens _
        _ ≤ 60 := by simp
  · next hlen => exact ⟨h, by omega⟩

/-- The pre-date part_002 name always matches the slug regex, is at most 60
characters, and never ends in a hyphen. -/
theorem preDateName_props (caption : List Nat) (settings : Settings) :
    matchesSlugRe (Part002.preDateName caption settings) = true ∧
    (Part002.preDateName caption settings).length ≤ 60 ∧
    lastNot45 (Part002.preDateName caption settings) = true := by
  unfold Part002.preDateName
  have h1 := kebab_good caption settings.cleanCaptions
  have h2 := limitWords_good settings.maxWords h1
  have h3 := capLength_good h2
  dsimp only
  split
  · exact ⟨by decide, by decide, by decide⟩
  · next hf =>
    set f := Part002.capLength
      (Part002.limitWords (Part002.kebab caption settings.cleanCaptions) settings.maxWords)
      with hfdef
    have hne : f ≠ [] := by
      intro he
      rw [he] at hf
      simp at hf
    refine ⟨?_, h3.2, h3.1.2.2.2⟩
    rw [matchesSlugRe, Bool.and_eq_true_iff]
    refine ⟨by simpa using hne, ?_⟩
    exact chunks_ok f h3.1.1 h3.1.2.1 h3.1.2.2.1 h3.1.2.2.2 hne

/-- A hyphen-joined pair of regex matches again matches the regex
(used for the `-YYYY-MM-DD` date suffix). -/
theorem matchesSlugRe_append {a b : List Nat} (ha : matchesSlugRe a = true)
    (hb : matchesSlugRe b = true) : matchesSlugRe (a ++ 45 :: b) = true := by
  rw [matchesSlugRe, Bool.and_eq_true_iff] at ha hb ⊢
  constructor
  · match a, ha with
    | c :: t, _ => simp
  · rw [splitSep_append, List.all_append, Bool.and_eq_true_iff]
    exact ⟨ha.2, hb.2⟩

theorem toLowerStr_not_upper {l : List Nat} : ∀ c ∈ toLowerStr l, isUpperAlpha c = false := by
  intro c hc
  rcases List.mem_map.mp hc with ⟨x, _, hx⟩
  subst hx
  unfold toLowerCode
  split <;> simp [isUpperAlpha] <;> omega

theorem wordCode_lower {n : Nat} (hw : isWordCode n = true) (hu : isUpperAlpha n = false) :
    (isLowerAlnum n || n == 95) = true := by
  simp only [isWordCode, isAlnumAny, isLowerAlpha, isUpperAlpha, isDigitCode,
    isLowerAlnum, Bool.or_eq_true, Bool.and_eq_true_iff, decide_eq_true_eq,
    beq_iff_eq, Bool.or_eq_false_iff, Bool.and_eq_false_iff,
    decide_eq_false_iff_not, not_le, not_and] at hw hu ⊢
  omega

theorem jsTrim_subset {l : List Nat} {c : Nat} (h : c ∈ jsTrim l) : c ∈ l := by
  unfold jsTrim at h
  rw [List.mem_reverse] at h
  have h1 := (List.dropWhile_sublist _).subset h
  rw [List.mem_reverse] at h1
  exact (List.dropWhile_sublist _).subset h1

theorem mem_rmArticlesGo : ∀ (fuel : Nat) (prevW : Bool) (l : List Nat) (c : Nat),
    c ∈ HfApi.rmArticlesGo fuel prevW l → c ∈ l
  | 0, _, l, c, h => by simpa [HfApi.rmArticlesGo] using h
  | _ + 1, _, [], c, h => by simpa [HfApi.rmArticlesGo] using h
  | fuel + 1, prevW, a :: rest, c, h => by
    simp only [HfApi.rmArticlesGo] at h
    split at h
    · rcases List.mem_cons.mp h with h' | h'
      · simp [h']
      · exact List.mem_cons_of_mem _ (mem_rmArticlesGo fuel _ rest c h')
    · split at h
      · exact List.mem_cons_of_mem _ (mem_rmArticlesGo fuel _ rest c h)
      · split at h
        · exact List.mem_cons_of_mem _
            (List.drop_subset 1 rest (mem_rmArticlesGo fuel _ _ c h))
        · split at h
          · exact List.mem_cons_of_mem _
              (List.drop_subset 2 rest (mem_rmArticlesGo fuel _ _ c h))
          · rcases List.mem_cons.mp h with h' | h'
            · simp [h']
            · exact List.mem_cons_of_mem _ (mem_rmArticlesGo fuel _ rest c h')

/-- Characters that can appear in the hf-api.js `text` local. -/
def textChar (n : Nat) : Bool :=
  isLowerAlnum n || n == 95 || n == 45 || n == 32

theorem cleanedText_chars (caption : List Nat) (clean : Bool) :
    ∀ c ∈ HfApi.cleanedText caption clean, textChar c = true := by
  have base : ∀ c ∈ (toLowerStr caption).filter
      (fun n => isWordCode n || isSpaceCode n || n == 45),
      ((isWordCode c || isSpaceCode c || c == 45) = true ∧ isUpperAlpha c = false) := by
    intro c hc
    exact ⟨(List.mem_filter.mp hc).2, toLowerStr_not_upper c (List.mem_filter.mp hc).1⟩
  have collapsed : ∀ c ∈ collapseRuns isSpaceCode 32 ((toLowerStr caption).filter
      (fun n => isWordCode n || isSpaceCode n || n == 45)), textChar c = true := by
    intro c hc
    rcases collapseRuns_mem hc with h | ⟨hm, hsp⟩
    · simp [textChar, h]
    · obtain ⟨hk, hu⟩ := base c hm
      simp only [Bool.or_eq_true] at hk
      rcases hk with (h | h) | h
      · have := wordCode_lower h hu
        simp only [textChar, Bool.or_eq_true] at this ⊢
        tauto
      · rw [h] at hsp; simp at hsp
      · simp [textChar, h]
  have trimmed : ∀ c ∈ jsTrim (collapseRuns isSpaceCode 32 ((toLowerStr caption).filter
      (fun n => isWordCode n || isSpaceCode n || n == 45))), textChar c = true :=
    fun c hc => collapsed c (jsTrim_subset hc)
  unfold HfApi.cleanedText
  split
  · intro c hc
    have hc1 := jsTrim_subset hc
    rcases collapseRuns_mem hc1 with h | ⟨hm, _⟩
    · simp [textChar, h]
    · exact trimmed c (mem_rmArticlesGo _ _ _ c hm)
  · exact trimmed

theorem limited_chars (caption : List Nat) (settings : Settings) :
    ∀ c ∈ HfApi.limited caption settings, hfOutChar c = true := by
  intro c hc
  unfold HfApi.limited at hc
  rcases mem_joinSep hc with h | ⟨w, hw, hcw⟩
  · simp [hfOutChar, h]
  · have hw' : w ∈ splitSep 32 (HfApi.cleanedText caption settings.cleanCaptions) := by
      have h1 := List.take_subset _ _ hw
      exact (List.mem_filter.mp h1).1
    have hmem := mem_of_mem_splitSep hw' hcw
    have hne := ne_sep_of_mem_splitSep hw' hcw
    have := cleanedText_chars caption settings.cleanCaptions c hmem
    simp only [textChar, Bool.or_eq_true] at this
    rcases this with ((h | h) | h) | h
    · simp [hfOutChar, h]
    · simp [hfOutChar, h]
    · simp [hfOutChar, h]
    · exact absurd (by simpa using h) hne

/-- The hf-api.js slugifier always yields a non-empty string over
`[a-z0-9_-]` (assuming the date string is digits and hyphens). -/
theorem hfApi_out (caption : List Nat) (settings : Settings) (today : List Nat)
    (htoday : ∀ c ∈ today, (isDigitCode c || c == 45) = true) :
    HfApi.captionToFilename caption settings today ≠ [] ∧
    ∀ c ∈ HfApi.captionToFilename caption settings today, hfOutChar c = true := by
  unfold HfApi.captionToFilename
  dsimp only
  split
  · constructor
    · simp
    · intro c hc
      rcases List.mem_append.mp hc with h | h
      · exact limited_chars caption settings c h
      · rcases List.mem_cons.mp h with h' | h'
        · simp [hfOutChar, h']
        · have := htoday c h'
          simp only [Bool.or_eq_true] at this
          rcases this with h'' | h''
          · simp [hfOutChar, isLowerAlnum, h'']
          · simp [hfOutChar, h'']
  · split
    · exact ⟨by decide, by decide⟩
    · next hne =>
      exact ⟨by simpa using hne, limited_chars caption settings⟩

theorem length_collapseRuns (p : Nat → Bool) (r : Nat) :
    ∀ l : List Nat, (collapseRuns p r l).length ≤ l.length
  | [] => by simp [collapseRuns]
  | [c] => by
    simp only [collapseRuns]
    split <;> simp
  | a :: b :: t => by
    simp only [collapseRuns]
    have ih := length_collapseRuns p r (b :: t)
    split
    · exact Nat.le_succ_of_le ih
    · simpa using Nat.succ_le_succ ih

theorem length_jsTrim (l : List Nat) : (jsTrim l).length ≤ l.length := by
  unfold jsTrim
  rw [List.length_reverse]
  calc ((l.dropWhile isSpaceCode).reverse.dropWhile isSpaceCode).length
      ≤ (l.dropWhile isSpaceCode).reverse.length :=
        (List.dropWhile_sublist _).length_le
    _ = (l.dropWhile isSpaceCode).length := List.length_reverse _
    _ ≤ l.length := (List.dropWhile_sublist _).length_le

theorem length_cleanupText (s : List Nat) : (cleanupText s).length ≤ s.length := by
  unfold cleanupText
  calc (jsTrim (collapseRuns (fun n => decide (n ≤ 31)) 32 (collapseRuns isSpaceCode 32 s))).length
      ≤ (collapseRuns (fun n => decide (n ≤ 31)) 32 (collapseRuns isSpaceCode 32 s)).length :=
        length_jsTrim _
    _ ≤ (collapseRuns isSpaceCode 32 s).length := length_collapseRuns _ _ _
    _ ≤ s.length := length_collapseRuns _ _ _

theorem clampInt_lower {n : JsNum} {lo hi : Int} : lo ≤ clampInt n lo hi :=
  le_max_left _ _

theorem clampInt_upper {n : JsNum} {lo hi : Int} (h : lo ≤ hi) : clampInt n lo hi ≤ hi :=
  max_le h (min_le_left _ _)

theorem clampInt_nonfinite {n : JsNum} {lo hi : Int} (hn : jsIsFinite n = false)
    (h : lo ≤ hi) : clampInt n lo hi = lo := by
  unfold clampInt
  match n, hn with
  | .nan, _ => simp [min_eq_right h]
  | .posInf, _ => simp [min_eq_right h]
  | .negInf, _ => simp [min_eq_right h]

/-- The title is capped to 200 characters and the excerpt to the effective
`maxChars` limit. -/
theorem extractPdfPreviewText_bounds (bytes : List Nat) (opts : PdfOpts)
    (oracle : List Nat → Option (List Nat)) :
    (extractPdfPreviewText bytes opts oracle).1.length ≤ 200 ∧
    (extractPdfPreviewText bytes opts oracle).2.length ≤ (effMaxChars opts).toNat := by
  unfold extractPdfPreviewText
  refine ⟨List.length_take_le _ _, ?_⟩
  calc (cleanupText ((extractTextFromEarlyStreams bytes (effMaxChars opts).toNat
        (effMaxStreams opts).toNat oracle).take (effMaxChars opts).toNat)).length
      ≤ ((extractTextFromEarlyStreams bytes (effMaxChars opts).toNat
        (effMaxStreams opts).toNat oracle).take (effMaxChars opts).toNat).length :=
        length_cleanupText _
    _ ≤ (effMaxChars opts).toNat := List.length_take_le _ _

theorem notifyEvs_filter_isHist (s : Settings) (t m : List Nat) (b : Bool) :
    (notifyEvs s t m b).filter Ev.isHist = [] := by
  unfold notifyEvs
  split <;> simp [Ev.isHist]

theorem notifyEvs_countP_isHist (s : Settings) (t m : List Nat) (b : Bool) :
    (notifyEvs s t m b).countP Ev.isHist = 0 := by
  unfold notifyEvs
  split <;> simp [Ev.isHist, List.countP_cons]

theorem notifyEvs_countP_isStats (s : Settings) (t m : List Nat) (b : Bool) :
    (notifyEvs s t m b).countP Ev.isStats = 0 := by
  unfold notifyEvs
  split <;> simp [Ev.isStats, List.countP_cons]

theorem failEvs_filter_isHist (s : Settings) (e : List Nat) :
    (failEvs s e).filter Ev.isHist = [Ev.history false] := by
  unfold failEvs
  simp [Ev.isHist, notifyEvs_filter_isHist]

theorem failEvs_countP_isHist (s : Settings) (e : List Nat) :
    (failEvs s e).countP Ev.isHist = 1 := by
  unfold failEvs
  simp [Ev.isHist, List.countP_cons, List.countP_append, notifyEvs_countP_isHist]

theorem failEvs_countP_isStats (s : Settings) (e : List Nat) :
    (failEvs s e).countP Ev.isStats = 1 := by
  unfold failEvs
  simp [Ev.isStats, List.countP_cons, List.countP_append, notifyEvs_countP_isStats]

/-- Per-branch history/stats accounting of the part_005 image path: one
history entry and one stats update whose flag is the outcome, except on the
silent small-image skip. -/
theorem renameImage_hist (settings : Settings) (item : DlItem) (env : RenameEnv)
    (rl : RLState) :
    ((Part005.renameImage settings item env rl).2.1.filter Ev.isHist =
      if Part005.imageSkipped settings env rl then []
      else [Ev.history (Part005.renameImage settings item env rl).1.isSome]) ∧
    (Part005.renameImage settings item env rl).2.1.countP Ev.isStats =
      (Part005.renameImage settings item env rl).2.1.countP Ev.isHist := by
  unfold Part005.renameImage Part005.imageSkipped
  by_cases ht : settings.hfToken.isEmpty
  · simp [ht, failEvs_filter_isHist, failEvs_countP_isHist, failEvs_countP_isStats]
  · rcases hrl : checkRateLimit env.now env.maxPerMinute rl with ⟨rl', eopt⟩
    rcases eopt with _ | e
    · -- rate budget available
      rcases hfz : fetchFile env.fetchRaw settings.maxImageSize with e | buf
      · simp [ht, hrl, hfz, Ev.isHist, Ev.isStats, List.countP_cons, List.countP_append,
          failEvs_filter_isHist, failEvs_countP_isHist, failEvs_countP_isStats,
          notifyEvs_countP_isHist, notifyEvs_countP_isStats]
      · by_cases hskip : settings.skipSmallImages ∧ (buf.length : Int) < settings.minImageSize
        · simp [ht, hrl, hfz, hskip, Ev.isHist, Ev.isStats, List.countP_cons]
        · rcases hprep : env.prepareResult with e | img
          · simp [ht, hrl, hfz, hskip, hprep, Ev.isHist, Ev.isStats, List.countP_cons,
              List.countP_append, failEvs_filter_isHist, failEvs_countP_isHist,
              failEvs_countP_isStats, notifyEvs_countP_isHist, notifyEvs_countP_isStats]
          · rcases hcap : env.captionResult with e | caption
            · simp [ht, hrl, hfz, hskip, hprep, hcap, Ev.isHist, Ev.isStats,
                List.countP_cons, List.countP_append, failEvs_filter_isHist,
                failEvs_countP_isHist, failEvs_countP_isStats, notifyEvs_countP_isHist,
                notifyEvs_countP_isStats]
            · simp [ht, hrl, hfz, hskip, hprep, hcap, Ev.isHist, Ev.isStats,
                List.countP_cons, List.countP_append, notifyEvs_filter_isHist,
                notifyEvs_countP_isHist, notifyEvs_countP_isStats]
    · -- rate limited
      simp [ht, hrl, failEvs_filter_isHist, failEvs_countP_isHist, failEvs_countP_isStats]

/-- Per-branch history/stats accounting of the part_005 PDF path: one history
entry and one stats update whose flag is the outcome, except when PDF
renaming is disabled (then nothing is written). -/
theorem renamePdf_hist (settings : Settings) (item : DlItem) (env : RenameEnv)
    (rl : RLState) :
    ((Part005.renamePdf settings item env rl).2.1.filter Ev.isHist =
      if settings.enablePdfRenaming then
        [Ev.history (Part005.renamePdf settings item env rl).1.isSome]
      else []) ∧
    (Part005.renamePdf settings item env rl).2.1.countP Ev.isStats =
      (Part005.renamePdf settings item env rl).2.1.countP Ev.isHist := by
  unfold Part005.renamePdf
  by_cases hp : settings.enablePdfRenaming
  · by_cases ht : settings.hfToken.isEmpty
    · simp [hp, ht, failEvs_filter_isHist, failEvs_countP_isHist, failEvs_countP_isStats]
    · rcases hrl : checkRateLimit env.now env.maxPerMinute rl with ⟨rl', eopt⟩
      rcases eopt with _ | e
      · rcases hfz : fetchFile env.fetchRaw settings.maxImageSize with e | buf
        · simp [hp, ht, hrl, hfz, Ev.isHist, Ev.isStats, List.countP_cons,
            List.countP_append, failEvs_filter_isHist, failEvs_countP_isHist,
            failEvs_countP_isStats, notifyEvs_countP_isHist, notifyEvs_countP_isStats]
        · rcases hname : env.nameResult with e | suggestion
          · simp [hp, ht, hrl, hfz, hname, Ev.isHist, Ev.isStats, List.countP_cons,
              List.countP_append, failEvs_filter_isHist, failEvs_countP_isHist,
              failEvs_countP_isStats, notifyEvs_countP_isHist, notifyEvs_countP_isStats]
          · simp [hp, ht, hrl, hfz, hname, Ev.isHist, Ev.isStats, List.countP_cons,
              List.countP_append, notifyEvs_filter_isHist, notifyEvs_countP_isHist,
              notifyEvs_countP_isStats]
      · simp [hp, ht, hrl, failEvs_filter_isHist, failEvs_countP_isHist,
          failEvs_countP_isStats]
  · simp [hp]

/-!  ## Concrete fixtures for the claim instances. -/

/-- Settings with cleaning off (defaults-like: `maxWords` 5). -/
def cfgPlain : Settings :=
  { hfToken := jstr "hf_x"
    model := jstr "m"
    cleanCaptions := false
    addDateSuffix := false
    skipSmallImages := false
    enableNotifications := false
    enablePdfRenaming := true
    maxWords := 5
    maxImageSize := 5242880
    minImageSize := 51200
    pdfMaxChars := 2500
    pdfMaxStreams := 12 }

/-- The end-to-end settings of the specification test:
`cleanCaptions` on and `maxWords` 4. -/
def cfgClean4 : Settings :=
  { cfgPlain with cleanCaptions := true, maxWords := 4 }

/-- `cfgClean4` with PDF renaming disabled. -/
def cfgPdfOff : Settings :=
  { cfgClean4 with enablePdfRenaming := false }

/-- The download item of the end-to-end test. -/
def sampleItem : DlItem :=
  { filename := jstr "photo123.jpg"
    url := jstr "https://example.com/photo123.jpg"
    finalUrl := []
    mime := jstr "image/jpeg" }

/-- A `DecompressionStream` oracle that always fails. -/
def noInflate : List Nat → Option (List Nat) := fun _ => none

/-- Oracle environment for the end-to-end test: the mocked caption response
is `"a white cat sitting on floor"`. -/
def sampleEnv : RenameEnv :=
  { now := 0
    maxPerMinute := 10
    today := []
    fetchRaw := .ok [1, 2, 3]
    prepareResult := .ok [9]
    captionResult := .ok (jstr "a white cat sitting on floor")
    nameResult := .ok (jstr "acme annual report 2024")
    hostOf := fun _ => some (jstr "example.com")
    inflate := noInflate
    imageTypes := [jstr "jpg", jstr "jpeg", jstr "png", jstr "webp", jstr "gif"] }

/-- A minimal PDF whose one uncompressed content stream holds exactly the
literal string operand `(Hello World) Tj`. -/
def pdfBufMin : List Nat :=
  jstr "%PDF-1.4\n1 0 obj << /Length 44 >>\nstream\nBT /F1 12 Tf (Hello World) Tj ET\nendstream\nendobj\n%%EOF"

/-- The same stream accompanied by a second literal string so that the kept
candidates join to more than 30 characters. -/
def pdfBufLong : List Nat :=
  jstr "%PDF-1.4\n1 0 obj << /Length 99 >>\nstream\nBT /F1 12 Tf (Hello World) Tj (continuing with more than thirty characters of text) Tj ET\nendstream\nendobj\n%%EOF"

/-- Two FlateDecode streams; stream data `AAAA` and `BBBB`. -/
def pdfBufTwoStreams : List Nat :=
  jstr "1 0 obj << /Filter /FlateDecode >>\nstream\nAAAA\nendstream\n2 0 obj << /Filter /FlateDecode >>\nstream\nBBBB\nendstream\n"

/-- An inflate oracle that fails on the first stream of
`pdfBufTwoStreams` and succeeds on the second. -/
def twoStreamInflate : List Nat → Option (List Nat) :=
  fun raw =>
    if raw = jstr "BBBB\n" then
      some (jstr "(second stream carries more than thirty characters ok) Tj")
    else none

/-- One uncompressed stream holding a 250-character literal string. -/
def pdfBufRepeat : List Nat :=
  jstr "x 0 obj\nstream\n(" ++ List.replicate 250 120 ++ jstr ")Tj\nendstream\n"

/-- Claim C5 counterexample: on the minimal one-stream PDF whose only kept
literal string is the 11-character `Hello World`, the joined text is not
longer than 30 characters, so the stream is skipped and the excerpt is
empty — it does not contain `Hello World` as the claim states. -/
theorem c5_hello_world_counterexample :
    jsIncludes (jstr "(Hello World) Tj") pdfBufMin = true ∧
    (extractPdfPreviewText pdfBufMin ⟨none, none⟩ noInflate).2 = [] ∧
    jsIncludes (jstr "Hello World")
      (extractPdfPreviewText pdfBufMin ⟨none, none⟩ noInflate).2 = false := by
  decide

/-- Claim C5 (corrected): when the stream's kept literal strings join to more
than 30 characters, the excerpt does contain `Hello World`. -/
theorem c5_hello_world_amended :
    jsIncludes (jstr "(Hello World) Tj") pdfBufLong = true ∧
    jsIncludes (jstr "Hello World")
      (extractPdfPreviewText pdfBufLong ⟨none, none⟩ noInflate).2 = true := by
  decide

/-- Claim C6 counterexample: at exactly 60000 ms elapsed since the window
start the source does not reset (it requires strictly more), so with a
consumed ceiling the call still raises, where the claim predicts a reset and
a success. -/
theorem c6_rate_limit_counterexample :
    ((60000 : Int) - (0 : Int) ≥ 60000) ∧
    (checkRateLimit 60000 1 ⟨1, 0⟩).2.isSome = true ∧
    (checkRateLimit 60000 1 ⟨1, 0⟩).1 = ⟨1, 0⟩ := by
  decide

/-- Claim C6 (corrected): within a window (elapsed ≤ 60000 ms) the limiter
raises exactly when the ceiling is consumed and otherwise increments the
counter in place; strictly after 60000 ms it resets, succeeds and leaves the
counter at 1. -/
theorem c6_rate_limiter_amended (now : Int) (maxPM : Nat) (s : RLState)
    (hmax : 1 ≤ maxPM) :
    (now - s.requestTimestamp ≤ 60000 →
      (((checkRateLimit now maxPM s).2 = none) ↔ s.requestCount < maxPM) ∧
      (s.requestCount < maxPM →
        checkRateLimit now maxPM s = (⟨s.requestCount + 1, s.requestTimestamp⟩, none))) ∧
    (60000 < now - s.requestTimestamp →
      checkRateLimit now maxPM s = (⟨1, now⟩, none)) := by
  constructor
  · intro hle
    have hnr : ¬(60000 < now - s.requestTimestamp) := by omega
    constructor
    · by_cases hc : maxPM ≤ s.requestCount
      · simp only [checkRateLimit, if_neg hnr, if_pos hc]
        constructor
        · intro h
          simp at h
        · intro h
          omega
      · simp only [checkRateLimit, if_neg hnr, if_neg hc]
        constructor
        · intro _
          omega
        · intro _
          trivial
    · intro hcount
      have hc : ¬(maxPM ≤ s.requestCount) := by omega
      simp only [checkRateLimit, if_neg hnr, if_neg hc]
  · intro hgt
    have hc : ¬(maxPM ≤ (0 : Nat)) := by omega
    simp only [checkRateLimit, if_pos hgt, if_neg hc]

/-- Claim C6 witness: a fresh limiter with ceiling 1 consumes one unit. -/
theorem c6_rate_limiter_amended_witness :
    (1 : Nat) ≤ 1 ∧ checkRateLimit 0 1 ⟨0, 0⟩ = (⟨1, 0⟩, none) :=
  ⟨by decide,
    ((c6_rate_limiter_amended 0 1 ⟨0, 0⟩ (by decide)).1 (by decide)).2 (by decide)⟩

/-- Claim C8: the extractor is a total function whose title is at most 200
characters and whose excerpt is at most the effective character limit; a
non-PDF buffer yields empty strings; and a per-stream inflate failure is
swallowed — with an oracle that fails on the first FlateDecode stream, the
scan continues and the second stream's text still reaches the excerpt. -/
theorem c8_extractor_total :
    (∀ (bytes : List Nat) (opts : PdfOpts) (oracle : List Nat → Option (List Nat)),
      (extractPdfPreviewText bytes opts oracle).1.length ≤ 200 ∧
      (extractPdfPreviewText bytes opts oracle).2.length ≤ (effMaxChars opts).toNat) ∧
    extractPdfPreviewText (jstr "not a pdf at all") ⟨none, none⟩ noInflate = ([], []) ∧
    twoStreamInflate ((pdfBufTwoStreams.drop 42).take 5) = none ∧
    jsIncludes (jstr "second stream carries more than thirty characters")
      (extractPdfPreviewText pdfBufTwoStreams ⟨none, none⟩ twoStreamInflate).2 = true :=
  ⟨fun bytes opts oracle => extractPdfPreviewText_bounds bytes opts oracle,
    by decide, by decide, by decide⟩

/-- Claim C9: the effective limits are always clamped into `[200, 12000]`
and `[1, 100]`; non-finite requests collapse to the minimum; a request of
`maxChars = 50` is raised to 200, and on a buffer with enough text the
excerpt really has 200 characters. -/
theorem c9_clamp (opts : PdfOpts) :
    200 ≤ effMaxChars opts ∧ effMaxChars opts ≤ 12000 ∧
    1 ≤ effMaxStreams opts ∧ effMaxStreams opts ≤ 100 ∧
    (∀ n, opts.maxChars = some n → jsIsFinite n = false → effMaxChars opts = 200) ∧
    (∀ n, opts.maxStreams = some n → jsIsFinite n = false → effMaxStreams opts = 1) ∧
    effMaxChars ⟨some (JsNum.fin 50), opts.maxStreams⟩ = 200 ∧
    (extractPdfPreviewText pdfBufRepeat ⟨some (JsNum.fin 50), none⟩ noInflate).2.length
      = 200 := by
  refine ⟨clampInt_lower, clampInt_upper (by decide), clampInt_lower,
    clampInt_upper (by decide), ?_, ?_, ?_, by decide⟩
  · intro n hn hfin
    unfold effMaxChars
    rw [hn]
    exact clampInt_nonfinite hfin (by decide)
  · intro n hn hfin
    unfold effMaxStreams
    rw [hn]
    exact clampInt_nonfinite hfin (by decide)
  · have h : effMaxChars ⟨some (JsNum.fin 50), opts.maxStreams⟩ =
        clampInt (JsNum.fin 50) 200 12000 := rfl
    rw [h]
    decide

/-- Claim C9 witness: non-finite requested limits collapse to the minima. -/
theorem c9_clamp_witness :
    effMaxChars ⟨some JsNum.nan, some JsNum.negInf⟩ = 200 ∧
    effMaxStreams ⟨some JsNum.nan, some JsNum.negInf⟩ = 1 :=
  ⟨(c9_clamp ⟨some JsNum.nan, some JsNum.negInf⟩).2.2.2.2.1 JsNum.nan rfl rfl,
    (c9_clamp ⟨some JsNum.nan, some JsNum.negInf⟩).2.2.2.2.2.1 JsNum.negInf rfl rfl⟩

/-- Claim C10: with `enablePdfRenaming` off, `renamePdf` returns null at
once: no fetch, no rate-limit consumption, no remote call, and no history,
stats, badge or notification effects. -/
theorem c10_pdf_disabled_frame (settings : Settings) (item : DlItem)
    (env : RenameEnv) (rl : RLState) (h : settings.enablePdfRenaming = false) :
    Part005.renamePdf settings item env rl = (none, [], rl) := by
  unfold Part005.renamePdf
  simp [h]

/-- Claim C10 witness: a concrete disabled-PDF call leaves the rate limiter
and the world untouched. -/
theorem c10_pdf_disabled_frame_witness :
    cfgPdfOff.enablePdfRenaming = false ∧
    Part005.renamePdf cfgPdfOff sampleItem sampleEnv ⟨3, 7⟩ = (none, [], ⟨3, 7⟩) :=
  ⟨by decide, c10_pdf_disabled_frame cfgPdfOff sampleItem sampleEnv ⟨3, 7⟩ (by decide)⟩

theorem kebab_nil (clean : Bool) : Part002.kebab [] clean = [] := by
  cases clean <;> rfl

theorem limitWords_nil (m : Int) : Part002.limitWords [] m = [] := by
  unfold Part002.limitWords
  split
  · next hm =>
    dsimp only
    split
    · next hlen =>
      exfalso
      simp [splitSep] at hlen
      omega
    · rfl
  · rfl

theorem cleanedText_nil (clean : Bool) : HfApi.cleanedText [] clean = [] := by
  cases clean <;> rfl

theorem hfApi_limited_nil (settings : Settings) : HfApi.limited [] settings = [] := by
  unfold HfApi.limited
  rw [cleanedText_nil]
  show joinHyphens (jsSliceTo (List.filter _ (splitSep 32 [])) _) = []
  simp [splitSep, jsSliceTo, joinHyphens, joinSep]

/-- Claim C1 counterexample: the hf-api.js slugifier keeps `\w` characters,
so the caption `"_"` slugifies to `"_"`, which neither matches
`^[a-z0-9]+(-[a-z0-9]+)*$` nor is a fallback literal. -/
theorem c1_regex_counterexample :
    HfApi.captionToFilename (jstr "_") cfgPlain [] = jstr "_" ∧
    matchesSlugRe (jstr "_") = false ∧
    jstr "_" ≠ jstr "download" ∧ jstr "_" ≠ jstr "image" := by
  decide

/-- Claim C1 (corrected): both slugifier variants are total and
deterministic; the part_002 variant's output always matches the regex
(for a digits-and-hyphens date suffix), while the hf-api.js variant only
guarantees a non-empty string over `[a-z0-9_-]`. -/
theorem c1_slugifiers_amended (caption : List Nat) (settings : Settings)
    (today : List Nat)
    (hdigits : ∀ c ∈ today, (isDigitCode c || c == 45) = true)
    (hre : matchesSlugRe today = true) :
    (Part002.captionToFilename caption settings today =
        Part002.captionToFilename caption settings today ∧
      HfApi.captionToFilename caption settings today =
        HfApi.captionToFilename caption settings today) ∧
    matchesSlugRe (Part002.captionToFilename caption settings today) = true ∧
    HfApi.captionToFilename caption settings today ≠ [] ∧
    (HfApi.captionToFilename caption settings today).all hfOutChar = true := by
  refine ⟨⟨rfl, rfl⟩, ?_, (hfApi_out caption settings today hdigits).1, ?_⟩
  · unfold Part002.captionToFilename
    dsimp only
    split
    · exact matchesSlugRe_append (preDateName_props caption settings).1 hre
    · exact (preDateName_props caption settings).1
  · rw [List.all_eq_true]
    exact (hfApi_out caption settings today hdigits).2

/-- Claim C1 witness: the amended statement at the end-to-end caption with a
concrete date. -/
theorem c1_slugifiers_amended_witness :
    ((∀ c ∈ jstr "2026-01-02", (isDigitCode c || c == 45) = true) ∧
      matchesSlugRe (jstr "2026-01-02") = true) ∧
    matchesSlugRe (Part002.captionToFilename (jstr "a white cat sitting on floor")
      cfgClean4 (jstr "2026-01-02")) = true :=
  ⟨⟨by decide, by decide⟩,
    (c1_slugifiers_amended (jstr "a white cat sitting on floor") cfgClean4
      (jstr "2026-01-02") (by decide) (by decide)).2.1⟩

/-- Claim C2: the part_002 slugifier removes the connective preposition
`on`, and the part_006 image flow (whose `./hf-api.js` is part_002) turns
the download `photo123.jpg` with the mocked caption
`"a white cat sitting on floor"` and settings `cleanCaptions, maxWords 4`
into `white-cat-sitting-floor.jpg`. -/
theorem c2_image_flow_end_to_end :
    Part002.captionToFilename (jstr "a white cat sitting on floor") cfgClean4 [] =
      jstr "white-cat-sitting-floor" ∧
    (Part006.renameImage cfgClean4 sampleItem sampleEnv ⟨0, 0⟩).1 =
      .ok (some (jstr "white-cat-sitting-floor.jpg")) :=
  ⟨by decide, by rfl⟩

/-- Claim C3 counterexample: the hf-api.js slugifier has no length cap; a
70-character single-word caption passes through at length 70. -/
theorem c3_length_cap_counterexample :
    cfgPlain.addDateSuffix = false ∧
    60 < (HfApi.captionToFilename (List.replicate 70 97) cfgPlain []).length := by
  decide

/-- Claim C3 (corrected): the part_002 slugifier caps its pre-date result at
60 characters and re-trims a trailing hyphen (the result never ends in a
hyphen); the hf-api.js variant imposes no cap. -/
theorem c3_length_cap_amended (caption : List Nat) (settings : Settings) :
    (Part002.preDateName caption settings).length ≤ 60 ∧
    lastNot45 (Part002.preDateName caption settings) = true :=
  ⟨(preDateName_props caption settings).2.1, (preDateName_props caption settings).2.2⟩

/-- Claim C4 counterexample: a one-character caption stays a one-character
filename in the hf-api.js slugifier — no fallback is substituted for
results shorter than 2 characters, and the image flow's fallback is
`download`, not `image`. -/
theorem c4_fallback_counterexample :
    HfApi.captionToFilename (jstr "x") cfgPlain [] = jstr "x" ∧
    (jstr "x").length < 2 ∧
    jstr "x" ≠ jstr "download" ∧ jstr "x" ≠ jstr "image" := by
  decide

/-- Claim C4 (corrected): the part_002 slugifier substitutes `image` exactly
when the capped result is shorter than 2 characters; the hf-api.js slugifier
(used by both current flows) substitutes `download` only for an empty result
(date suffix off); the empty caption yields `image` and `download`
respectively. -/
theorem c4_fallback_amended (caption : List Nat) (settings : Settings)
    (hdate : settings.addDateSuffix = false) :
    ((Part002.capLength (Part002.limitWords
        (Part002.kebab caption settings.cleanCaptions) settings.maxWords)).length < 2 →
      Part002.captionToFilename caption settings [] = jstr "image") ∧
    (HfApi.limited caption settings = [] →
      HfApi.captionToFilename caption settings [] = jstr "download") ∧
    Part002.captionToFilename (jstr "") settings [] = jstr "image" ∧
    HfApi.captionToFilename (jstr "") settings [] = jstr "download" := by
  refine ⟨?_, ?_, ?_, ?_⟩
  · intro hlen
    unfold Part002.captionToFilename Part002.preDateName
    simp [hdate, hlen]
  · intro hlim
    unfold HfApi.captionToFilename
    simp [hdate, hlim]
  · unfold Part002.captionToFilename Part002.preDateName
    rw [show jstr "" = ([] : List Nat) from rfl, kebab_nil, limitWords_nil]
    simp [hdate, Part002.capLength]
  · unfold HfApi.captionToFilename
    rw [show jstr "" = ([] : List Nat) from rfl, hfApi_limited_nil]
    simp [hdate]

/-- Claim C4 witness: the empty caption under concrete date-free settings. -/
theorem c4_fallback_amended_witness :
    cfgPlain.addDateSuffix = false ∧
    Part002.captionToFilename (jstr "") cfgPlain [] = jstr "image" ∧
    HfApi.captionToFilename (jstr "") cfgPlain [] = jstr "download" :=
  ⟨by decide, (c4_fallback_amended (jstr "") cfgPlain (by decide)).2.2.1,
    (c4_fallback_amended (jstr "") cfgPlain (by decide)).2.2.2⟩

/-- Claim C7 counterexample: a download that enters the PDF rename path with
PDF renaming disabled writes zero HistoryEntry records, not exactly one. -/
theorem c7_history_counterexample :
    (Part005.renamePdf cfgPdfOff sampleItem sampleEnv ⟨0, 0⟩).2.1.countP Ev.isHist
      = 0 ∧
    ¬((Part005.renamePdf cfgPdfOff sampleItem sampleEnv ⟨0, 0⟩).2.1.countP Ev.isHist
      = 1) := by
  decide

/-- Claim C7 (corrected): in both part_005 rename paths, exactly one
HistoryEntry is written — flagged with the outcome, never two and never
zero — and Stats updates match HistoryEntry writes one for one, except on
the deliberate skip paths (small-image skip; PDF renaming disabled), which
write neither. -/
theorem c7_history_stats_amended (settings : Settings) (item : DlItem)
    (env : RenameEnv) (rl : RLState) :
    ((Part005.renameImage settings item env rl).2.1.filter Ev.isHist =
      if Part005.imageSkipped settings env rl then []
      else [Ev.history (Part005.renameImage settings item env rl).1.isSome]) ∧
    ((Part005.renameImage settings item env rl).2.1.countP Ev.isStats =
      (Part005.renameImage settings item env rl).2.1.countP Ev.isHist) ∧
    ((Part005.renamePdf settings item env rl).2.1.filter Ev.isHist =
      if settings.enablePdfRenaming then
        [Ev.history (Part005.renamePdf settings item env rl).1.isSome]
      else []) ∧
    ((Part005.renamePdf settings item env rl).2.1.countP Ev.isStats =
      (Part005.renamePdf settings item env rl).2.1.countP Ev.isHist) :=
  ⟨(renameImage_hist settings item env rl).1, (renameImage_hist settings item env rl).2,
    (renamePdf_hist settings item env rl).1, (renamePdf_hist settings item env rl).2⟩
